import Mathlib

/-!
Verification development for the loop-nest lowering and thread-synchronization
analysis of the CoRA tensor compiler core.  The definitions below are shallow
embeddings of:

  * `src/tir/pass/storage_sync_improved.cc` — `ThreadSyncPlanner`
    (`FindConflict`, `Summarize`), `ThreadSyncInserter`, `ThreadSync`;
  * the Z3 constraint bridge (`Z3Converter`, `Z3Analyzer::AddConstraint`,
    `AddForallConstraint`, `CanProve`);
  * `src/te/schedule/change_tensor_layout.cc` —
    `ReplaceIndexTensorByDenseTensor` and the scan/conditional rebuilds in
    `IndexByDenseLayoutChange`;
  * `op_util.cc` — `IndexLoopVarDeps` and `MakeLoopNestFromDependentVars`.

External collaborators (the arithmetic simplifier, `UninterpFun` machinery,
message passing such as `PassDownBitMaskOr`, the Z3 library itself) are
modelled as oracle parameters; everything written in the repository itself is
translated structurally.
-/

/-- Program variables.  `base n` is an `IterVar`'s own variable, `initv n` the
`name + ".init"` copy created when `new_loop_var` is set, `idx n` the
`name + ".idx"` auxiliary induction variable of a non-zero-based loop. -/
inductive PVar
  | base (n : Nat)
  | initv (n : Nat)
  | idx (n : Nat)
  deriving DecidableEq, Repr

/-- The data types the constraint bridge distinguishes: integer (`is_int` /
`is_uint`), boolean, and everything else (modelled by one non-integer type). -/
inductive DType
  | i32
  | boolT
  | f32
  deriving DecidableEq, Repr

/-- A structural subset of TVM `PrimExpr`, covering exactly the node kinds the
`Z3Converter` visitor dispatches on (plus `select`/`floatImm` as
representatives of the node kinds that fall into `VisitExprDefault_`).
Calls are embedded with one argument; the arity is irrelevant to every
property proved below. -/
inductive PExpr
  | evar (v : PVar)
  | intImm (n : Int)
  | add (a b : PExpr)
  | sub (a b : PExpr)
  | mul (a b : PExpr)
  | divE (a b : PExpr)
  | modE (a b : PExpr)
  | minE (a b : PExpr)
  | maxE (a b : PExpr)
  | eqE (a b : PExpr)
  | neE (a b : PExpr)
  | ltE (a b : PExpr)
  | leE (a b : PExpr)
  | gtE (a b : PExpr)
  | geE (a b : PExpr)
  | andE (a b : PExpr)
  | orE (a b : PExpr)
  | notE (a : PExpr)
  | castE (d : DType) (a : PExpr)
  | load (buf : Nat) (ix : PExpr)
  | shiftRight (a b : PExpr)
  | callPure (fid : Nat) (arg : PExpr)
  | callImpure (d : DType) (fid : Nat)
  | select (d : DType) (c a b : PExpr)
  | floatImm
  deriving DecidableEq, Repr

/-- The dtype of an expression, as queried by `dtype.is_bool()` /
`is_int()`/`is_uint()` in the bridge.  Comparisons and logic are boolean,
arithmetic and variables are integer. -/
def PExpr.dtypeOf : PExpr → DType
  | .evar _ => .i32
  | .intImm _ => .i32
  | .add _ _ | .sub _ _ | .mul _ _ | .divE _ _ | .modE _ _ | .minE _ _ | .maxE _ _ => .i32
  | .eqE _ _ | .neE _ _ | .ltE _ _ | .leE _ _ | .gtE _ _ | .geE _ _ => .boolT
  | .andE _ _ | .orE _ _ | .notE _ => .boolT
  | .castE d _ => d
  | .load _ _ => .i32
  | .shiftRight _ _ => .i32
  | .callPure _ _ => .i32
  | .callImpure d _ => d
  | .select d _ _ _ => d
  | .floatImm => .f32

/-- `VarReplacer` with the single-entry map `v -> r`: structural substitution
of a variable by an expression. -/
def PExpr.substVar : PExpr → PVar → PExpr → PExpr
  | .evar w, v, r => if w = v then r else .evar w
  | .intImm n, _, _ => .intImm n
  | .add a b, v, r => .add (a.substVar v r) (b.substVar v r)
  | .sub a b, v, r => .sub (a.substVar v r) (b.substVar v r)
  | .mul a b, v, r => .mul (a.substVar v r) (b.substVar v r)
  | .divE a b, v, r => .divE (a.substVar v r) (b.substVar v r)
  | .modE a b, v, r => .modE (a.substVar v r) (b.substVar v r)
  | .minE a b, v, r => .minE (a.substVar v r) (b.substVar v r)
  | .maxE a b, v, r => .maxE (a.substVar v r) (b.substVar v r)
  | .eqE a b, v, r => .eqE (a.substVar v r) (b.substVar v r)
  | .neE a b, v, r => .neE (a.substVar v r) (b.substVar v r)
  | .ltE a b, v, r => .ltE (a.substVar v r) (b.substVar v r)
  | .leE a b, v, r => .leE (a.substVar v r) (b.substVar v r)
  | .gtE a b, v, r => .gtE (a.substVar v r) (b.substVar v r)
  | .geE a b, v, r => .geE (a.substVar v r) (b.substVar v r)
  | .andE a b, v, r => .andE (a.substVar v r) (b.substVar v r)
  | .orE a b, v, r => .orE (a.substVar v r) (b.substVar v r)
  | .notE a, v, r => .notE (a.substVar v r)
  | .castE d a, v, r => .castE d (a.substVar v r)
  | .load buf ix, v, r => .load buf (ix.substVar v r)
  | .shiftRight a b, v, r => .shiftRight (a.substVar v r) (b.substVar v r)
  | .callPure f a, v, r => .callPure f (a.substVar v r)
  | .callImpure d f, _, _ => .callImpure d f
  | .select d c a b, v, r => .select d (c.substVar v r) (a.substVar v r) (b.substVar v r)
  | .floatImm, _, _ => .floatImm

/-- Evaluation of a variable-free expression to an integer (booleans as 0/1);
`none` on variables, loads, calls and non-integer leaves.  Used to build a
concrete instance of the prover oracle on ground inputs. -/
def PExpr.evalClosed : PExpr → Option Int
  | .evar _ => none
  | .intImm n => some n
  | .add a b => do pure ((← a.evalClosed) + (← b.evalClosed))
  | .sub a b => do pure ((← a.evalClosed) - (← b.evalClosed))
  | .mul a b => do pure ((← a.evalClosed) * (← b.evalClosed))
  | .divE a b => do pure ((← a.evalClosed) / (← b.evalClosed))
  | .modE a b => do pure ((← a.evalClosed) % (← b.evalClosed))
  | .minE a b => do pure (min (← a.evalClosed) (← b.evalClosed))
  | .maxE a b => do pure (max (← a.evalClosed) (← b.evalClosed))
  | .eqE a b => do pure (if (← a.evalClosed) = (← b.evalClosed) then 1 else 0)
  | .neE a b => do pure (if (← a.evalClosed) = (← b.evalClosed) then 0 else 1)
  | .ltE a b => do pure (if (← a.evalClosed) < (← b.evalClosed) then 1 else 0)
  | .leE a b => do pure (if (← a.evalClosed) ≤ (← b.evalClosed) then 1 else 0)
  | .gtE a b => do pure (if (← b.evalClosed) < (← a.evalClosed) then 1 else 0)
  | .geE a b => do pure (if (← b.evalClosed) ≤ (← a.evalClosed) then 1 else 0)
  | .andE a b => do pure (if (← a.evalClosed) ≠ 0 ∧ (← b.evalClosed) ≠ 0 then 1 else 0)
  | .orE a b => do pure (if (← a.evalClosed) ≠ 0 ∨ (← b.evalClosed) ≠ 0 then 1 else 0)
  | .notE a => do pure (if (← a.evalClosed) = 0 then 1 else 0)
  | .castE _ a => a.evalClosed
  | .load _ _ => none
  | .shiftRight a b => do pure ((← a.evalClosed) / 2 ^ (← b.evalClosed).toNat)
  | .callPure _ _ => none
  | .callImpure _ _ => none
  | .select _ c a b => do
      if (← c.evalClosed) ≠ 0 then a.evalClosed else b.evalClosed
  | .floatImm => none

/-! ## Thread-sync planner (`storage_sync_improved.cc`) -/

/-- `arith::IntSet` as used by the planner: an interval with `min()`/`max()`
bound expressions.  `pt` records `min().same_as(max())` (pointer identity of
the two bounds), which is what `is_single_point()` tests. -/
structure IntSet where
  lo : PExpr
  hi : PExpr
  pt : Bool
  deriving DecidableEq, Repr

/-- `point_value()` of an interval (meaningful when `pt` is set). -/
def IntSet.pointValue (s : IntSet) : PExpr := s.lo

/-- Access kinds of `StorageAccessVisitor::AccessEntry`. -/
inductive AccType
  | kRead
  | kWrite
  | kSync
  deriving DecidableEq, Repr

/-- `AccessEntry`: one memory-access fact.  `buffer = none` models the
default-constructed (undefined) buffer variable of a synthetic sync entry;
`touched` of a sync entry is likewise a default interval that is never
inspected. -/
structure AccessEntry where
  threads : List Nat
  buffer : Option Nat
  typ : AccType
  touched : IntSet
  dbufWrite : Bool
  deriving DecidableEq, Repr

/-- `StmtEntry`: a statement (identified by its object identity `sid`, the
planner keys `syncs_inserted_` by statement pointers) with its access facts. -/
structure StmtEntry where
  sid : Nat
  access : List AccessEntry
  deriving DecidableEq, Repr

/-- The prover bridge used by `FindConflict`: a fresh `arith::Analyzer` with
the environment-thread ranges bound.  `canProveLt a b` models
`analyzer.CanProve(a < b)`, `canProveGt a b` models `analyzer.CanProve(a > b)`,
and `eqSimplified a b` models `Equal(analyzer.Simplify(a), analyzer.Simplify(b))`. -/
structure Prover where
  canProveLt : PExpr → PExpr → Bool
  canProveGt : PExpr → PExpr → Bool
  eqSimplified : PExpr → PExpr → Bool

/-- `ThreadSyncPlanner::FindConflict(vec, e, loop_carry)`: scan `vec` for an
entry on the same buffer as `e` that is not excused by (a) the provably-equal
single-point test, (b) the bound-comparison test
`CanProve(x.max < e.min) || CanProve(e.max > x.min)` — note the second
comparison is `>` in the source — or (c) the double-buffer-write/read
non-loop-carry test. -/
def findConflict (pv : Prover) (vec : List AccessEntry) (e : AccessEntry)
    (loopCarry : Bool) : Bool :=
  vec.any fun x =>
    x.buffer = e.buffer &&
    !(e.touched.pt && x.touched.pt &&
      pv.eqSimplified e.touched.pointValue x.touched.pointValue) &&
    !(pv.canProveLt x.touched.hi e.touched.lo ||
      pv.canProveGt e.touched.hi x.touched.lo) &&
    !(x.dbufWrite && e.typ == .kRead && !loopCarry)

/-- A concrete instance of the prover oracle that decides comparisons between
variable-free bounds by evaluation (which is exactly what any sound and
ground-complete decision procedure answers on such queries) and answers
conservatively otherwise. -/
def groundProver : Prover where
  canProveLt a b :=
    match a.evalClosed, b.evalClosed with
    | some x, some y => decide (x < y)
    | _, _ => false
  canProveGt a b :=
    match a.evalClosed, b.evalClosed with
    | some x, some y => decide (y < x)
    | _, _ => false
  eqSimplified a b :=
    match a.evalClosed, b.evalClosed with
    | some x, some y => decide (x = y)
    | _, _ => decide (a = b)

/-- Earlier accumulated write: touches the interval `[0, 10]` of buffer 7. -/
def writeAcc : AccessEntry :=
  { threads := [], buffer := some 7, typ := .kWrite,
    touched := { lo := .intImm 0, hi := .intImm 10, pt := false },
    dbufWrite := false }

/-- Later read of the same buffer 7 touching `[5, 6]` — inside the written
interval, so the two accesses genuinely race. -/
def readAcc : AccessEntry :=
  { threads := [], buffer := some 7, typ := .kRead,
    touched := { lo := .intImm 5, hi := .intImm 6, pt := false },
    dbufWrite := false }

/-- C1: In the Thread-Sync Planner's conflict test, no conflict should be
reported only for provably-equal single points, provably disjoint intervals,
or the double-buffer case.  The code instead tests `e.max > x.min` where
disjointness needs `e.max < x.min`: evaluated at a write touching `[0, 10]`
and a read of the same buffer touching `[5, 6]` — overlapping intervals that
are not single points and not a double-buffer pair — `FindConflict` reports no
conflict, so no sync point is planned between two racing accesses. -/
theorem findConflict_misses_overlap :
    findConflict groundProver [writeAcc] readAcc false = false ∧
    writeAcc.buffer = readAcc.buffer ∧
    writeAcc.touched.pt = false ∧ readAcc.touched.pt = false ∧
    writeAcc.dbufWrite = false ∧
    -- the touched intervals `[0, 10]` and `[5, 6]` overlap (5 lies in both):
    ((0 : Int) ≤ 5 ∧ (5 : Int) ≤ 10 ∧ (5 : Int) ≤ 5 ∧ (5 : Int) ≤ 6) := by
  decide

/-- The running mutable state of `ThreadSyncPlanner::Summarize`: the
`syncs_inserted_` member (statement identities) plus the local `reads` and
`writes` vectors of unsynchronized accesses. -/
structure SyncState where
  syncs : List Nat
  reads : List AccessEntry
  writes : List AccessEntry
  deriving DecidableEq, Repr

/-- `std::unordered_set::insert` on the statement-identity set. -/
def insertSync (l : List Nat) (x : Nat) : List Nat :=
  if l.contains x then l else l ++ [x]

/-- The per-statement access scan of `Summarize`'s first pass: a read is
tested against the accumulated writes and a write against the accumulated
reads (with `loop_carry = false`), breaking at the first conflict; a sync
access clears both sets mid-scan. -/
def scanAccs1 (pv : Prover) :
    List AccessEntry → List AccessEntry → List AccessEntry →
      Bool × List AccessEntry × List AccessEntry
  | [], reads, writes => (false, reads, writes)
  | acc :: rest, reads, writes =>
    match acc.typ with
    | .kRead =>
        if findConflict pv writes acc false then (true, reads, writes)
        else scanAccs1 pv rest reads writes
    | .kWrite =>
        if findConflict pv reads acc false then (true, reads, writes)
        else scanAccs1 pv rest reads writes
    | .kSync => scanAccs1 pv rest [] []

/-- The "add the read/write of current statement" loop of `Summarize`:
accumulate reads and writes, a sync access clearing both sets. -/
def addAccs :
    List AccessEntry → List AccessEntry → List AccessEntry →
      List AccessEntry × List AccessEntry
  | [], reads, writes => (reads, writes)
  | acc :: rest, reads, writes =>
    match acc.typ with
    | .kRead => addAccs rest (reads ++ [acc]) writes
    | .kWrite => addAccs rest reads (writes ++ [acc])
    | .kSync => addAccs rest [] []

/-- One statement of `Summarize`'s first (linear forward) pass: apply an
already-recorded sync, test the statement's accesses for conflicts, clear the
accumulated sets when a sync lands before the statement, accumulate the
statement's own accesses, and record the sync point. -/
def pass1Step (pv : Prover) (st : SyncState) (s : StmtEntry) : SyncState :=
  let sync0 := st.syncs.contains s.sid
  let rw0 := if sync0 then ([], []) else (st.reads, st.writes)
  let scanned := scanAccs1 pv s.access rw0.1 rw0.2
  let syncBefore := sync0 || scanned.1
  let rw1 := if syncBefore then ([], []) else (scanned.2.1, scanned.2.2)
  let rw2 := addAccs s.access rw1.1 rw1.2
  { syncs := if syncBefore then insertSync st.syncs s.sid else st.syncs,
    reads := rw2.1, writes := rw2.2 }

/-- `updatedForSequentialLoop`: the loop-carried image of an access under a
serial loop, obtained by substituting `loop_var -> loop_var + 1` in the
touched interval.  When the interval's bounds are the same object
(`same_as`), the single substituted value is used for both bounds, keeping
the interval a single point; otherwise both bounds are substituted
separately (producing distinct bound objects). -/
def shiftEntry (lv : PVar) (acc : AccessEntry) : AccessEntry :=
  if acc.touched.pt then
    let nv := acc.touched.lo.substVar lv (.add (.evar lv) (.intImm 1))
    { threads := acc.threads, buffer := acc.buffer, typ := acc.typ,
      touched := { lo := nv, hi := nv, pt := true }, dbufWrite := acc.dbufWrite }
  else
    { threads := acc.threads, buffer := acc.buffer, typ := acc.typ,
      touched :=
        { lo := acc.touched.lo.substVar lv (.add (.evar lv) (.intImm 1)),
          hi := acc.touched.hi.substVar lv (.add (.evar lv) (.intImm 1)),
          pt := false },
      dbufWrite := acc.dbufWrite }

/-- The per-statement access scan of `Summarize`'s loop-carry pass: each
access is first replaced by `updatedForSequentialLoop` — the shifted entry
when the enclosing loop is serial, the entry itself otherwise — and then
tested (with `loop_carry = true`) against the opposite-kind accumulated set. -/
def scanAccs2 (pv : Prover) (serial : Bool) (lv : PVar) :
    List AccessEntry → List AccessEntry → List AccessEntry →
      Bool × List AccessEntry × List AccessEntry
  | [], reads, writes => (false, reads, writes)
  | acc :: rest, reads, writes =>
    let upd := if serial then shiftEntry lv acc else acc
    match upd.typ with
    | .kRead =>
        if findConflict pv writes upd true then (true, reads, writes)
        else scanAccs2 pv serial lv rest reads writes
    | .kWrite =>
        if findConflict pv reads upd true then (true, reads, writes)
        else scanAccs2 pv serial lv rest reads writes
    | .kSync => scanAccs2 pv serial lv rest [] []

/-- `Summarize`'s loop-carry pass (run only when a loop wraps the sequence):
walk the statements in order, stopping at the first statement that already
has a sync or once both accumulated sets are empty; at the first simulated
conflict insert a sync before that statement and stop. -/
def pass2 (pv : Prover) (serial : Bool) (lv : PVar) :
    List StmtEntry → SyncState → SyncState
  | [], st => st
  | s :: rest, st =>
    if st.syncs.contains s.sid then st
    else if st.reads.isEmpty && st.writes.isEmpty then st
    else
      let scanned := scanAccs2 pv serial lv s.access st.reads st.writes
      if scanned.1 then
        { syncs := insertSync st.syncs s.sid, reads := scanned.2.1, writes := scanned.2.2 }
      else pass2 pv serial lv rest
        { syncs := st.syncs, reads := scanned.2.1, writes := scanned.2.2 }

/-- The synthetic sync fact `esync` built by `Summarize`'s compression step
(its buffer and touched interval are default-constructed and never read). -/
def esyncEntry (envThreads : List Nat) : AccessEntry :=
  { threads := envThreads, buffer := none, typ := .kSync,
    touched := { lo := .intImm 0, hi := .intImm 0, pt := true },
    dbufWrite := false }

/-- The state of the compression fold: number of sync events seen, the `head`
list (before the first sync) and the `tail` list (after the most recent
sync). -/
structure CompressState where
  syncCount : Nat
  head : List AccessEntry
  tail : List AccessEntry
  deriving DecidableEq, Repr

/-- One sync event during compression: the first sync event appends the
synthetic `esync` to `head`; every later one merely clears `tail`. -/
def compressSyncEv (esync : AccessEntry) (cs : CompressState) : CompressState :=
  if cs.syncCount ≠ 0 then
    { syncCount := cs.syncCount + 1, head := cs.head, tail := [] }
  else
    { syncCount := cs.syncCount + 1, head := cs.head ++ [esync], tail := cs.tail }

/-- One access of the compression fold: a sync access is a sync event; any
other access is appended to `head` (no sync seen yet) or `tail` (after a
sync). -/
def compressAccStep (esync : AccessEntry) (cs : CompressState)
    (acc : AccessEntry) : CompressState :=
  if acc.typ == .kSync then compressSyncEv esync cs
  else if cs.syncCount ≠ 0 then
    { syncCount := cs.syncCount, head := cs.head, tail := cs.tail ++ [acc] }
  else
    { syncCount := cs.syncCount, head := cs.head ++ [acc], tail := cs.tail }

/-- One statement of the compression fold: a recorded sync before the
statement counts as a sync event, then the statement's accesses are folded
in. -/
def compressStmt (syncs : List Nat) (esync : AccessEntry)
    (cs : CompressState) (s : StmtEntry) : CompressState :=
  let cs1 := if syncs.contains s.sid then compressSyncEv esync cs else cs
  s.access.foldl (compressAccStep esync) cs1

/-- The compression step of `Summarize`: fold the sequence, return
`head ++ tail`, and — when a loop wraps the sequence — clear every
double-buffer-write flag of the returned entries. -/
def compress (syncs : List Nat) (envThreads : List Nat) (loopPresent : Bool)
    (seq : List StmtEntry) : List AccessEntry :=
  let esync := esyncEntry envThreads
  let cs := seq.foldl (compressStmt syncs esync) ⟨0, [], []⟩
  let out := cs.head ++ cs.tail
  if loopPresent then out.map (fun e => { e with dbufWrite := false }) else out

/-- `ThreadSyncPlanner::Summarize`: first pass, optional loop-carry pass
(`loop = some (serial?, loop_var)`), then compression.  Returns the updated
`syncs_inserted_` set and the exposed access list. -/
def summarize (pv : Prover) (envThreads : List Nat) (loop : Option (Bool × PVar))
    (syncs0 : List Nat) (seq : List StmtEntry) : List Nat × List AccessEntry :=
  let st1 := seq.foldl (pass1Step pv) { syncs := syncs0, reads := [], writes := [] }
  let st2 :=
    match loop with
    | none => st1
    | some sl => pass2 pv sl.1 sl.2 seq st1
  (st2.syncs, compress st2.syncs envThreads loop.isSome seq)

/-- A statement with every access replaced by its loop-carried (shifted)
image. -/
def shiftStmt (lv : PVar) (s : StmtEntry) : StmtEntry :=
  { sid := s.sid, access := s.access.map (shiftEntry lv) }

theorem scanAccs2_serial_eq (pv : Prover) (lv : PVar) :
    ∀ (accs : List AccessEntry) (reads writes : List AccessEntry),
      scanAccs2 pv true lv accs reads writes =
        scanAccs2 pv false lv (accs.map (shiftEntry lv)) reads writes := by
  intro accs
  induction accs with
  | nil => intro reads writes; simp [scanAccs2]
  | cons acc rest ih =>
      intro reads writes
      simp only [List.map_cons, scanAccs2, if_pos, if_neg]
      cases h : (shiftEntry lv acc).typ <;> simp [h, ih]

theorem scanAccs2_nonserial_lv_irrel (pv : Prover) (lv lv' : PVar) :
    ∀ (accs : List AccessEntry) (reads writes : List AccessEntry),
      scanAccs2 pv false lv accs reads writes =
        scanAccs2 pv false lv' accs reads writes := by
  intro accs
  induction accs with
  | nil => intro reads writes; simp [scanAccs2]
  | cons acc rest ih =>
      intro reads writes
      simp only [scanAccs2]
      cases h : acc.typ <;> simp [h, ih]

/-- C4: In `Summarize`'s loop-carry pass, a serial loop tests every access
with its touched interval rewritten by `loop_var -> loop_var + 1` (the pass
behaves exactly like the unshifted pass applied to the pre-shifted
sequence), while a non-serial loop tests every access unshifted (the pass is
completely independent of the loop variable).  The final conjunct records
that the shift is precisely the substitution of `loop_var + 1` for
`loop_var` in both touched bounds. -/
theorem pass2_serial_shifts (pv : Prover) (lv lv' : PVar) :
    (∀ (seq : List StmtEntry) (st : SyncState),
      pass2 pv true lv seq st = pass2 pv false lv (seq.map (shiftStmt lv)) st) ∧
    (∀ (seq : List StmtEntry) (st : SyncState),
      pass2 pv false lv seq st = pass2 pv false lv' seq st) ∧
    (∀ acc : AccessEntry,
      (shiftEntry lv acc).touched.lo
          = acc.touched.lo.substVar lv (.add (.evar lv) (.intImm 1)) ∧
      (shiftEntry lv acc).touched.hi
          = (if acc.touched.pt then acc.touched.lo else acc.touched.hi).substVar lv
              (.add (.evar lv) (.intImm 1)) ∧
      (shiftEntry lv acc).typ = acc.typ ∧
      (shiftEntry lv acc).buffer = acc.buffer ∧
      (shiftEntry lv acc).dbufWrite = acc.dbufWrite) := by
  refine ⟨?_, ?_, ?_⟩
  · intro seq
    induction seq with
    | nil => intro st; simp [pass2]
    | cons s rest ih =>
        intro st
        simp only [List.map_cons, pass2, shiftStmt, scanAccs2_serial_eq]
        by_cases h1 : st.syncs.contains s.sid
        · have h1m : s.sid ∈ st.syncs := by simpa using h1
          simp [h1m]
        · by_cases h2 : st.reads.isEmpty && st.writes.isEmpty
          · simp [h1, h2]
          · simp [h1, h2, ih]
  · intro seq
    induction seq with
    | nil => intro st; simp [pass2]
    | cons s rest ih =>
        intro st
        simp only [pass2, scanAccs2_nonserial_lv_irrel pv lv lv']
        by_cases h1 : st.syncs.contains s.sid
        · have h1m : s.sid ∈ st.syncs := by simpa using h1
          simp [h1m]
        · by_cases h2 : st.reads.isEmpty && st.writes.isEmpty
          · simp [h1, h2]
          · simp [h1, h2, ih]
  · intro acc
    by_cases h : acc.touched.pt <;> simp [shiftEntry, h]

/-! ### Characterization of the compression step (claim C8) -/

/-- The stream of events the compression fold reacts to: sync events (a
recorded sync before a statement, or a sync access) and plain accesses. -/
inductive CEvent
  | syncEv
  | accEv (a : AccessEntry)
  deriving DecidableEq, Repr

/-- The events contributed by one statement. -/
def stmtEvents (syncs : List Nat) (s : StmtEntry) : List CEvent :=
  (if syncs.contains s.sid then [CEvent.syncEv] else []) ++
    s.access.map (fun a => if a.typ == .kSync then CEvent.syncEv else CEvent.accEv a)

/-- The event stream of a whole statement sequence. -/
def eventsOf (syncs : List Nat) (seq : List StmtEntry) : List CEvent :=
  (seq.map (stmtEvents syncs)).flatten

/-- The event-level image of the compression fold. -/
def compressEv (esync : AccessEntry) (cs : CompressState) : CEvent → CompressState
  | .syncEv => compressSyncEv esync cs
  | .accEv a =>
      if cs.syncCount ≠ 0 then
        { syncCount := cs.syncCount, head := cs.head, tail := cs.tail ++ [a] }
      else
        { syncCount := cs.syncCount, head := cs.head ++ [a], tail := cs.tail }

/-- All plain accesses of an event stream, in order. -/
def accsOf : List CEvent → List AccessEntry
  | [] => []
  | .syncEv :: rest => accsOf rest
  | .accEv a :: rest => a :: accsOf rest

/-- The plain accesses strictly before the first sync event. -/
def accsBeforeFirst : List CEvent → List AccessEntry
  | [] => []
  | .syncEv :: _ => []
  | .accEv a :: rest => a :: accsBeforeFirst rest

/-- The plain accesses strictly after the last sync event (meaningful when
the stream contains a sync event). -/
def accsAfterLast : List CEvent → List AccessEntry
  | [] => []
  | .syncEv :: rest =>
      if CEvent.syncEv ∈ rest then accsAfterLast rest else accsOf rest
  | .accEv _ :: rest => accsAfterLast rest

theorem compressAccStep_eq_ev (esync : AccessEntry) (cs : CompressState)
    (acc : AccessEntry) :
    compressAccStep esync cs acc =
      compressEv esync cs (if acc.typ == .kSync then .syncEv else .accEv acc) := by
  by_cases h : acc.typ == .kSync <;> simp [compressAccStep, compressEv, h]

theorem foldl_compressAccStep_eq (esync : AccessEntry) :
    ∀ (l : List AccessEntry) (cs : CompressState),
      l.foldl (compressAccStep esync) cs =
        (l.map (fun a => if a.typ == .kSync then CEvent.syncEv else CEvent.accEv a)).foldl
          (compressEv esync) cs := by
  intro l
  induction l with
  | nil => intro cs; rfl
  | cons a rest ih =>
      intro cs
      simp only [List.foldl_cons, List.map_cons, ih, compressAccStep_eq_ev]

theorem compressStmt_eq_events (syncs : List Nat) (esync : AccessEntry)
    (cs : CompressState) (s : StmtEntry) :
    compressStmt syncs esync cs s = (stmtEvents syncs s).foldl (compressEv esync) cs := by
  simp only [compressStmt, stmtEvents, List.foldl_append, foldl_compressAccStep_eq]
  by_cases h : s.sid ∈ syncs <;> simp [h, compressEv]

theorem foldl_compressStmt_eq_events (syncs : List Nat) (esync : AccessEntry) :
    ∀ (seq : List StmtEntry) (cs : CompressState),
      seq.foldl (compressStmt syncs esync) cs =
        (eventsOf syncs seq).foldl (compressEv esync) cs := by
  intro seq
  induction seq with
  | nil => intro cs; simp [eventsOf]
  | cons s rest ih =>
      intro cs
      simp only [List.foldl_cons, eventsOf, List.map_cons, List.flatten_cons,
        List.foldl_append, ih, compressStmt_eq_events]

theorem runEv_after_sync (esync : AccessEntry) :
    ∀ (evs : List CEvent) (cs : CompressState), cs.syncCount ≠ 0 →
      (evs.foldl (compressEv esync) cs).head = cs.head ∧
      (evs.foldl (compressEv esync) cs).tail =
        (if CEvent.syncEv ∈ evs then accsAfterLast evs
         else cs.tail ++ accsOf evs) ∧
      (evs.foldl (compressEv esync) cs).syncCount ≠ 0 := by
  intro evs
  induction evs with
  | nil => intro cs h; simp [accsOf, h]
  | cons e rest ih =>
      intro cs h
      cases e with
      | syncEv =>
          have step : compressEv esync cs .syncEv =
              ⟨cs.syncCount + 1, cs.head, []⟩ := by
            simp [compressEv, compressSyncEv, h]
          obtain ⟨ih1, ih2, ih3⟩ :=
            ih ⟨cs.syncCount + 1, cs.head, []⟩ (by simp)
          refine ⟨?_, ?_, ?_⟩
          · simpa [step] using ih1
          · simp only [List.foldl_cons, step, List.mem_cons, true_or, if_true]
            by_cases hc : CEvent.syncEv ∈ rest <;>
              simp only [hc, if_true, if_false, List.nil_append, accsAfterLast,
                List.mem_cons, true_or] at ih2 ⊢ <;> exact ih2
          · simpa [step] using ih3
      | accEv a =>
          have step : compressEv esync cs (.accEv a) =
              ⟨cs.syncCount, cs.head, cs.tail ++ [a]⟩ := by
            simp [compressEv, h]
          obtain ⟨ih1, ih2, ih3⟩ :=
            ih ⟨cs.syncCount, cs.head, cs.tail ++ [a]⟩ (by simpa using h)
          refine ⟨?_, ?_, ?_⟩
          · simpa [step] using ih1
          · simp only [List.foldl_cons, step]
            have hne : (CEvent.accEv a) ≠ CEvent.syncEv := by simp
            by_cases hc : CEvent.syncEv ∈ rest
            · simp only [hc, if_true] at ih2
              simp [hc, accsAfterLast, ih2]
            · simp only [hc, if_false] at ih2
              simp [hc, accsAfterLast, accsOf, ih2]
          · simpa [step] using ih3

theorem runEv_from_zero (esync : AccessEntry) :
    ∀ (evs : List CEvent) (head : List AccessEntry),
      (evs.foldl (compressEv esync) ⟨0, head, []⟩).head =
        head ++ (if CEvent.syncEv ∈ evs
                 then accsBeforeFirst evs ++ [esync] else accsOf evs) ∧
      (evs.foldl (compressEv esync) ⟨0, head, []⟩).tail =
        (if CEvent.syncEv ∈ evs then accsAfterLast evs else []) := by
  intro evs
  induction evs with
  | nil => intro head; simp [accsOf]
  | cons e rest ih =>
      intro head
      cases e with
      | syncEv =>
          have step : compressEv esync ⟨0, head, []⟩ .syncEv =
              ⟨1, head ++ [esync], []⟩ := by
            simp [compressEv, compressSyncEv]
          obtain ⟨h1, h2, _⟩ :=
            runEv_after_sync esync rest ⟨1, head ++ [esync], []⟩ (by simp)
          refine ⟨?_, ?_⟩
          · simp only [List.foldl_cons, step, List.mem_cons, true_or, if_true]
            simpa [accsBeforeFirst] using h1
          · simp only [List.foldl_cons, step, List.mem_cons, true_or, if_true]
            by_cases hc : CEvent.syncEv ∈ rest
            · simp only [hc, if_true] at h2
              simp [hc, accsAfterLast, h2]
            · simp only [hc, if_false] at h2
              simp [hc, accsAfterLast, accsOf, h2]
      | accEv a =>
          have step : compressEv esync ⟨0, head, []⟩ (.accEv a) =
              ⟨0, head ++ [a], []⟩ := by
            simp [compressEv]
          obtain ⟨h1, h2⟩ := ih (head ++ [a])
          refine ⟨?_, ?_⟩
          · simp only [List.foldl_cons, step]
            by_cases hc : CEvent.syncEv ∈ rest
            · simp only [hc, if_true] at h1
              simp [hc, accsBeforeFirst, List.append_assoc, h1]
            · simp only [hc, if_false] at h1
              simp [hc, accsBeforeFirst, accsOf, List.append_assoc, h1]
          · simp only [List.foldl_cons, step]
            by_cases hc : CEvent.syncEv ∈ rest
            · simp only [hc, if_true] at h2
              simp [hc, accsAfterLast, h2]
            · simp only [hc, if_false] at h2
              simp [hc, accsAfterLast, h2]

/-- A read access used by the compression counterexample. -/
def r8 : AccessEntry :=
  { threads := [], buffer := some 1, typ := .kRead,
    touched := { lo := .intImm 0, hi := .intImm 0, pt := true },
    dbufWrite := false }

/-- A write access to the same buffer whose touched interval `[-2, -1]` lies
provably below the read's `[0, 0]`, so pass 1 of `Summarize` plans a sync
before its statement. -/
def w8 : AccessEntry :=
  { threads := [], buffer := some 1, typ := .kWrite,
    touched := { lo := .intImm (-2), hi := .intImm (-1), pt := false },
    dbufWrite := false }

/-- C8 (counterexample): the summary `Summarize` returns does NOT drop the
accesses before the first sync.  On a two-statement sequence — a read, then a
conflicting write of the same buffer, before which pass 1 inserts a sync —
the returned summary is `[read, esync, write]`: the read preceding the first
sync survives, where the claim requires the summary to drop it. -/
theorem summarize_keeps_pre_sync_accesses :
    (summarize groundProver [] none []
        [⟨1, [r8]⟩, ⟨2, [w8]⟩]).2 = [r8, esyncEntry [], w8] ∧
    r8.typ = .kRead := by
  decide

/-- C8 (amended): the summary returned by `Summarize` keeps the accesses
before the first sync event, replaces ALL sync events — adjacent or not, so
in particular two adjacent forced syncs yield one sync fact, not two — by a
single synthetic sync fact placed at the first of them, drops every access
between the first and the last sync event, keeps the accesses after the last
sync event, and (when a loop wraps the sequence) clears the double-buffer
flags; a sequence with no sync event summarizes to its full access list. -/
theorem summarize_compression_structure (envThreads : List Nat) :
    (∀ (pv : Prover) (loop : Option (Bool × PVar)) (syncs0 : List Nat)
        (seq : List StmtEntry),
      (summarize pv envThreads loop syncs0 seq).2 =
        compress (summarize pv envThreads loop syncs0 seq).1 envThreads
          loop.isSome seq) ∧
    (∀ (syncs : List Nat) (lp : Bool) (seq : List StmtEntry),
      compress syncs envThreads lp seq =
        (let evs := eventsOf syncs seq
         let core :=
           if CEvent.syncEv ∈ evs then
             accsBeforeFirst evs ++ [esyncEntry envThreads] ++ accsAfterLast evs
           else accsOf evs
         if lp then core.map (fun e => { e with dbufWrite := false }) else core)) := by
  constructor
  · intro pv loop syncs0 seq
    cases loop <;> rfl
  · intro syncs lp seq
    show compress syncs envThreads lp seq = _
    simp only [compress, foldl_compressStmt_eq_events]
    obtain ⟨h1, h2⟩ := runEv_from_zero (esyncEntry envThreads) (eventsOf syncs seq) []
    by_cases hc : CEvent.syncEv ∈ eventsOf syncs seq
    · simp only [hc, if_true] at h1 h2
      simp [hc, h1, h2, List.append_assoc]
    · simp only [hc, if_false] at h1 h2
      simp [hc, h1, h2]

/-! ## Thread-sync inserter and `ThreadSync` driver -/

/-- A skeletal statement tree: leaves (`EvaluateNode` etc.), two-child
sequences, single-child wrappers (`AttrStmtNode`, `ForNode`, ...), each
carrying its object identity, plus the nodes the inserter itself creates —
the barrier intrinsic and the fresh `SeqStmt {barrier, stmt}` (fresh objects,
hence never members of `syncs_`). -/
inductive MStmt
  | evalS (id : Nat)
  | seqS (id : Nat) (a b : MStmt)
  | attrS (id : Nat) (body : MStmt)
  | barrier
  | barrierSeq (a b : MStmt)
  deriving DecidableEq, Repr

/-- The object identity of a statement; the nodes manufactured by the
inserter are fresh objects, absent from any pre-existing pointer set. -/
def MStmt.sidOf : MStmt → Option Nat
  | .evalS i => some i
  | .seqS i _ _ => some i
  | .attrS i _ => some i
  | .barrier => none
  | .barrierSeq _ _ => none

mutual

/-- `ThreadSyncInserter::VisitStmt`: if the sync set is empty return the
statement unchanged; if the statement is marked, emit a barrier in front of
the (recursively rewritten) statement; otherwise recurse. -/
def insVisit (syncs : List Nat) : MStmt → MStmt
  | s =>
    if syncs.length = 0 then s
    else
      match s.sidOf with
      | some i =>
          if syncs.contains i then .barrierSeq .barrier (insBase syncs s)
          else insBase syncs s
      | none => insBase syncs s
termination_by s => (sizeOf s, 1)

/-- The base-class (`StmtExprMutator`) traversal: rebuild each child through
the derived `VisitStmt`. -/
def insBase (syncs : List Nat) : MStmt → MStmt
  | .evalS i => .evalS i
  | .seqS i a b => .seqS i (insVisit syncs a) (insVisit syncs b)
  | .attrS i b => .attrS i (insVisit syncs b)
  | .barrier => .barrier
  | .barrierSeq a b => .barrierSeq (insVisit syncs a) (insVisit syncs b)
termination_by s => (sizeOf s, 0)

end

/-- `ThreadSync(stmt, scope)`: run the planner (whose inserted-sync set is
the `plannedSyncs` parameter here) and apply the inserter to the body. -/
def threadSync (plannedSyncs : List Nat) (body : MStmt) : MStmt :=
  insVisit plannedSyncs body

/-- C10: when the planner marks no statement (the inserted-sync set is
empty), `ThreadSync` returns the function body unchanged, and the inserter's
`VisitStmt` returns every statement as-is without rewriting it. -/
theorem threadSync_empty_syncs_id (plannedSyncs : List Nat) (body : MStmt)
    (h : plannedSyncs = []) :
    threadSync plannedSyncs body = body ∧
    (∀ s : MStmt, insVisit plannedSyncs s = s) := by
  subst h
  refine ⟨?_, ?_⟩
  · show insVisit [] body = body
    rw [insVisit]
    simp
  · intro s
    rw [insVisit]
    simp

/-- Witness for C10 at a concrete body. -/
theorem threadSync_empty_syncs_id_witness :
    threadSync [] (MStmt.seqS 3 (MStmt.evalS 1) (MStmt.evalS 2)) =
      MStmt.seqS 3 (MStmt.evalS 1) (MStmt.evalS 2) :=
  (threadSync_empty_syncs_id [] (MStmt.seqS 3 (MStmt.evalS 1) (MStmt.evalS 2)) rfl).1

/-! ## Tensor-layout rewriter (`change_tensor_layout.cc`) -/

/-- The fields of `ScanOpNode` touched by the rebuild in
`IndexByDenseLayoutChange`.  Payloads that are merely copied are represented
by opaque tokens; tensors and dimensions by identifiers. -/
structure ScanOpData where
  name : String
  tag : String
  attrs : List (String × String)
  dim2varMaps : Nat
  var2dimMap : Nat
  scanAxis : Nat
  explicitDims : List Nat
  explicitLoopIvs : List Nat
  scanInit : List Nat
  update : List Nat
  statePlaceholder : List Nat
  inputs : List Nat
  scanDim : Nat
  initSeparate : Bool
  spatialDims : List Nat
  spatialAxis : List Nat
  deriving DecidableEq, Repr

/-- The rebuild of a scan operation in `IndexByDenseLayoutChange` (the
`new ScanOpNode` block): the new operation takes the densified
state-placeholder/update/init tensors, recomputes the spatial
dimensions/axes from the new updates' root index dimensions (`dim2iv`
models `dim2var_maps[i].at(dim).iv`), copies everything else from the old
operation — and names itself `old.name + ".d"`. -/
def mkNewScanOp (old : ScanOpData) (newInits newUpdates newStates : List Nat)
    (updatesRootDims : List (List Nat)) (dim2iv : Nat → Nat → Nat) : ScanOpData :=
  { name := old.name ++ ".d",
    tag := old.tag,
    attrs := old.attrs,
    dim2varMaps := old.dim2varMaps,
    var2dimMap := old.var2dimMap,
    scanAxis := old.scanAxis,
    explicitDims := old.explicitDims,
    explicitLoopIvs := old.explicitLoopIvs,
    scanInit := newInits,
    update := newUpdates,
    statePlaceholder := newStates,
    inputs := old.inputs,
    scanDim := old.scanDim,
    initSeparate := old.initSeparate,
    spatialDims := updatesRootDims.flatten,
    spatialAxis :=
      (updatesRootDims.enum.map (fun p => p.2.map (dim2iv p.1))).flatten }

/-- The fields of `ConditionalOpNode` touched by its rebuild. -/
structure ConditionalOpData where
  name : String
  tag : String
  attrs : List (String × String)
  dim2varMaps : Nat
  var2dimMap : Nat
  fromThen : Nat
  thenCase : List Nat
  fromElse : Nat
  elseCase : List Nat
  condition : Nat
  explicitDims : List Nat
  explicitLoopIvs : List Nat
  spatialDims : List Nat
  spatialAxis : List Nat
  deriving DecidableEq, Repr

/-- The rebuild of a conditional operation in `IndexByDenseLayoutChange` (the
`new ConditionalOpNode` block): new then/else tensors, spatial data recomputed
from the new then-cases, everything else copied — and the name is
`old.name + ".d"`. -/
def mkNewConditionalOp (old : ConditionalOpData) (newThens newElses : List Nat)
    (thensRootDims : List (List Nat)) (dim2iv : Nat → Nat → Nat) :
    ConditionalOpData :=
  { name := old.name ++ ".d",
    tag := old.tag,
    attrs := old.attrs,
    dim2varMaps := old.dim2varMaps,
    var2dimMap := old.var2dimMap,
    fromThen := old.fromThen,
    thenCase := newThens,
    fromElse := old.fromElse,
    elseCase := newElses,
    condition := old.condition,
    explicitDims := old.explicitDims,
    explicitLoopIvs := old.explicitLoopIvs,
    spatialDims := thensRootDims.flatten,
    spatialAxis :=
      (thensRootDims.enum.map (fun p => p.2.map (dim2iv p.1))).flatten }

/-- A concrete scan operation used to refute the name-preservation part of
claim C6. -/
def oldScan6 : ScanOpData :=
  { name := "s", tag := "t", attrs := [("k", "v")],
    dim2varMaps := 0, var2dimMap := 0, scanAxis := 0,
    explicitDims := [4], explicitLoopIvs := [5],
    scanInit := [1], update := [2], statePlaceholder := [3],
    inputs := [], scanDim := 6, initSeparate := false,
    spatialDims := [], spatialAxis := [] }

/-- C6 (counterexample): the rebuilt scan operation does not keep the old
operation's name — `freeze` renames it to `name + ".d"` (`"s"` becomes
`"s.d"`), so "its name ... [is] equal to those of the operation it replaces"
fails at this concrete input. -/
theorem mkNewScanOp_renames :
    (mkNewScanOp oldScan6 [7] [8] [9] [[4]] (fun _ d => d)).name ≠ oldScan6.name := by
  decide

/-- C6 (amended): the rebuilt scan and conditional operations preserve the
old operation's tag, attrs and explicit dimensions (and the other copied
metadata), but the rebuilt name is the old name with `".d"` appended, not the
old name itself. -/
theorem freeze_rebuild_preserves_metadata :
    (∀ (old : ScanOpData) (newInits newUpdates newStates : List Nat)
        (rds : List (List Nat)) (d2i : Nat → Nat → Nat),
      (mkNewScanOp old newInits newUpdates newStates rds d2i).tag = old.tag ∧
      (mkNewScanOp old newInits newUpdates newStates rds d2i).attrs = old.attrs ∧
      (mkNewScanOp old newInits newUpdates newStates rds d2i).explicitDims
          = old.explicitDims ∧
      (mkNewScanOp old newInits newUpdates newStates rds d2i).explicitLoopIvs
          = old.explicitLoopIvs ∧
      (mkNewScanOp old newInits newUpdates newStates rds d2i).scanDim = old.scanDim ∧
      (mkNewScanOp old newInits newUpdates newStates rds d2i).initSeparate
          = old.initSeparate ∧
      (mkNewScanOp old newInits newUpdates newStates rds d2i).name
          = old.name ++ ".d") ∧
    (∀ (old : ConditionalOpData) (newThens newElses : List Nat)
        (rds : List (List Nat)) (d2i : Nat → Nat → Nat),
      (mkNewConditionalOp old newThens newElses rds d2i).tag = old.tag ∧
      (mkNewConditionalOp old newThens newElses rds d2i).attrs = old.attrs ∧
      (mkNewConditionalOp old newThens newElses rds d2i).explicitDims
          = old.explicitDims ∧
      (mkNewConditionalOp old newThens newElses rds d2i).explicitLoopIvs
          = old.explicitLoopIvs ∧
      (mkNewConditionalOp old newThens newElses rds d2i).condition
          = old.condition ∧
      (mkNewConditionalOp old newThens newElses rds d2i).name
          = old.name ++ ".d") := by
  constructor
  · intro old newInits newUpdates newStates rds d2i
    exact ⟨rfl, rfl, rfl, rfl, rfl, rfl, rfl⟩
  · intro old newThens newElses rds d2i
    exact ⟨rfl, rfl, rfl, rfl, rfl, rfl⟩

/-- The diagnostics `ReplaceIndexTensorByDenseTensor` can raise, each naming
the offending tensor (the `CHECK` messages stream `old_tensor`). -/
inductive CTLDiag
  | multiPattern (tensorName : String)
  | inputNotFound (tensorName : String)
  deriving DecidableEq, Repr

/-- The reader-rewrite loop of `ReplaceIndexTensorByDenseTensor`: each reader
operation is rewritten by `ReplaceInputs` (the `replOp` oracle); a rewrite
that leaves the reader unchanged (`repl_op.same_as(op_stage->op)`) is a fatal
diagnostic. -/
def replaceReaders (tensorName : String) (replOp : Nat → Nat) :
    List Nat → Except CTLDiag (List Nat)
  | [] => .ok []
  | r :: rest =>
      let r' := replOp r
      if r' = r then .error (.inputNotFound tensorName)
      else do
        let rest' ← replaceReaders tensorName replOp rest
        .ok (r' :: rest')

/-- `ReplaceIndexTensorByDenseTensor`: collect the access patterns of all
readers (their number is `numPatterns`), fail with a diagnostic naming the
tensor unless there is exactly one pattern, then rewrite every reader. -/
def replaceIndexTensorByDenseTensor (tensorName : String) (numPatterns : Nat)
    (readers : List Nat) (replOp : Nat → Nat) : Except CTLDiag (List Nat) :=
  if numPatterns = 1 then replaceReaders tensorName replOp readers
  else .error (.multiPattern tensorName)

theorem replaceReaders_all_changed (tensorName : String) (replOp : Nat → Nat) :
    ∀ readers : List Nat, (∀ r ∈ readers, replOp r ≠ r) →
      replaceReaders tensorName replOp readers = .ok (readers.map replOp) := by
  intro readers
  induction readers with
  | nil => intro _; rfl
  | cons r rest ih =>
      intro hall
      have hr : replOp r ≠ r := hall r (List.mem_cons_self r rest)
      have hrest := ih (fun x hx => hall x (List.mem_cons_of_mem r hx))
      simp [replaceReaders, hr, hrest, Except.bind,
        bind, Except.pure]

/-- C7: densifying a tensor read through more than one distinct access
pattern fails with a diagnostic naming the tensor (the code in fact requires
exactly one pattern); with exactly one pattern, the replacement proceeds
across all readers, every reader being rewritten by `ReplaceInputs`. -/
theorem densify_single_pattern_only (tensorName : String) (numPatterns : Nat)
    (readers : List Nat) (replOp : Nat → Nat) :
    (numPatterns ≠ 1 →
      replaceIndexTensorByDenseTensor tensorName numPatterns readers replOp =
        .error (.multiPattern tensorName)) ∧
    (numPatterns = 1 → (∀ r ∈ readers, replOp r ≠ r) →
      replaceIndexTensorByDenseTensor tensorName numPatterns readers replOp =
        .ok (readers.map replOp)) := by
  constructor
  · intro h
    simp [replaceIndexTensorByDenseTensor, h]
  · intro h hall
    simp [replaceIndexTensorByDenseTensor, h,
      replaceReaders_all_changed tensorName replOp readers hall]

/-- Witness for C7: with two access patterns the rewrite fails naming the
tensor; with one access pattern both readers are rewritten. -/
theorem densify_single_pattern_only_witness :
    replaceIndexTensorByDenseTensor "T" 2 [10, 20] (fun r => r + 1) =
      .error (.multiPattern "T") ∧
    replaceIndexTensorByDenseTensor "T" 1 [10, 20] (fun r => r + 1) =
      .ok [11, 21] := by
  constructor
  · exact (densify_single_pattern_only "T" 2 [10, 20] (fun r => r + 1)).1
      (by decide)
  · exact (densify_single_pattern_only "T" 1 [10, 20] (fun r => r + 1)).2
      rfl (by decide)

/-! ## Constraint/prover bridge (`Z3Converter`, `Z3Analyzer`) -/

/-- The constraint-expression language the converter targets (z3 terms):
arithmetic, comparisons, boolean connectives, power (for the right-shift
translation `a / pw(2, b)`), uninterpreted functions keyed by buffer variable
(loads) or function identity (pure calls), and universal quantification.
The `->simplify()` applied by `ConvertToZ3` is semantics-preserving and is
modelled as the identity. -/
inductive ZExpr
  | zvar (v : PVar)
  | intVal (n : Int)
  | boolVal (b : Bool)
  | zadd (a b : ZExpr)
  | zsub (a b : ZExpr)
  | zmul (a b : ZExpr)
  | zdiv (a b : ZExpr)
  | zmod (a b : ZExpr)
  | zmin (a b : ZExpr)
  | zmax (a b : ZExpr)
  | zeq (a b : ZExpr)
  | zne (a b : ZExpr)
  | zlt (a b : ZExpr)
  | zle (a b : ZExpr)
  | zgt (a b : ZExpr)
  | zge (a b : ZExpr)
  | zand (a b : ZExpr)
  | zor (a b : ZExpr)
  | znot (a : ZExpr)
  | zimplies (a b : ZExpr)
  | zpw (a b : ZExpr)
  | ufLoad (buf : Nat) (ix : ZExpr)
  | ufCall (fid : Nat) (arg : ZExpr)
  | zforall (vs : List PVar) (body : ZExpr)
  deriving DecidableEq, Repr

/-- The two exception kinds the bridge catches: `std::invalid_argument`
(thrown by the converter on unsupported nodes) and `z3::exception`. -/
inductive ConvErr
  | invalidArg
  | z3exc
  deriving DecidableEq, Repr

/-- `Z3Converter`: recursive translation of a `PrimExpr` into a constraint
expression.  Variables and integer immediates translate directly; `/`, `%`,
`floordiv`, `floormod` map onto the solver's division and modulus; a cast
visits its value; a load becomes an uninterpreted function of its index
keyed by the buffer variable; `shift_right` becomes `a / pw(2, b)`; a pure
integer call becomes an uninterpreted function keyed by the callee; any
other call, and any node kind without a visitor (`VisitExprDefault_`),
throws `std::invalid_argument`.  (The memoization tables only cache
results and do not change them, so they are not modelled.) -/
def convertToZ3 : PExpr → Except ConvErr ZExpr
  | .evar v => .ok (.zvar v)
  | .intImm n => .ok (.intVal n)
  | .add a b => do pure (.zadd (← convertToZ3 a) (← convertToZ3 b))
  | .sub a b => do pure (.zsub (← convertToZ3 a) (← convertToZ3 b))
  | .mul a b => do pure (.zmul (← convertToZ3 a) (← convertToZ3 b))
  | .divE a b => do pure (.zdiv (← convertToZ3 a) (← convertToZ3 b))
  | .modE a b => do pure (.zmod (← convertToZ3 a) (← convertToZ3 b))
  | .minE a b => do pure (.zmin (← convertToZ3 a) (← convertToZ3 b))
  | .maxE a b => do pure (.zmax (← convertToZ3 a) (← convertToZ3 b))
  | .eqE a b => do pure (.zeq (← convertToZ3 a) (← convertToZ3 b))
  | .neE a b => do pure (.zne (← convertToZ3 a) (← convertToZ3 b))
  | .ltE a b => do pure (.zlt (← convertToZ3 a) (← convertToZ3 b))
  | .leE a b => do pure (.zle (← convertToZ3 a) (← convertToZ3 b))
  | .gtE a b => do pure (.zgt (← convertToZ3 a) (← convertToZ3 b))
  | .geE a b => do pure (.zge (← convertToZ3 a) (← convertToZ3 b))
  | .andE a b => do pure (.zand (← convertToZ3 a) (← convertToZ3 b))
  | .orE a b => do pure (.zor (← convertToZ3 a) (← convertToZ3 b))
  | .notE a => do pure (.znot (← convertToZ3 a))
  | .castE _ a => convertToZ3 a
  | .load buf ix => do pure (.ufLoad buf (← convertToZ3 ix))
  | .shiftRight a b => do
      pure (.zdiv (← convertToZ3 a) (.zpw (.intVal 2) (← convertToZ3 b)))
  | .callPure f a => do pure (.ufCall f (← convertToZ3 a))
  | .callImpure _ _ => .error .invalidArg
  | .select _ _ _ _ => .error .invalidArg
  | .floatImm => .error .invalidArg

/-- The assumption state of `Z3Analyzer`: the per-variable constraint
vectors (`var_constraints`) and the general constraint vector
(`general_constraints`). -/
structure Z3State where
  varConstraints : List (PVar × List ZExpr)
  generalConstraints : List ZExpr
  deriving DecidableEq, Repr

/-- Replace (or create) the constraint vector of a variable. -/
def setVarC : List (PVar × List ZExpr) → PVar → List ZExpr →
    List (PVar × List ZExpr)
  | [], v, cs => [(v, cs)]
  | (w, old) :: rest, v, cs =>
      if w = v then (w, cs) :: rest else (w, old) :: setVarC rest v cs

/-- `Z3Analyzer::Update(var, min, max, overwrite)`: convert the bounds and
the variable, start a fresh vector when the variable is new or `overwrite`
is set, and push `var >= min` and `var < max`; any conversion exception is
caught and the update silently abandoned. -/
def updateVar (st : Z3State) (v : PVar) (minE maxE : PExpr) (overwrite : Bool) :
    Z3State :=
  match convertToZ3 minE, convertToZ3 maxE, convertToZ3 (.evar v) with
  | .ok zmn, .ok zmx, .ok zv =>
      let old :=
        if (st.varConstraints.lookup v).isNone || overwrite then []
        else (st.varConstraints.lookup v).getD []
      { st with varConstraints :=
          setVarC st.varConstraints v (old ++ [.zge zv zmn, .zlt zv zmx]) }
  | _, _, _ => st

/-- `Z3Analyzer::Bind(var, range)` delegates to `Update` with
`overwrite = false` and bounds `[min, min + extent)`. -/
def bindVarRange (st : Z3State) (v : PVar) (rmin rext : PExpr) : Z3State :=
  updateVar st v rmin (.add rmin rext) false

/-- Is the expression an integer immediate (`constraint.as<IntImmNode>()`)? -/
def isIntImm : PExpr → Bool
  | .intImm _ => true
  | _ => false

/-- `Z3Analyzer::AddConstraint`: an integer immediate pushes
`ctx.bool_val(imm != 0)` — note `imm` there is the non-null `IntImmNode`
pointer, so the pushed value is always `true`; a boolean-typed expression is
converted — with NO try/catch around this `ConvertToZ3` call, so a conversion
failure propagates to the caller; anything else is silently dropped. -/
def addConstraint (st : Z3State) (c : PExpr) : Except ConvErr Z3State :=
  if isIntImm c then
    .ok { st with generalConstraints := st.generalConstraints ++ [.boolVal true] }
  else if c.dtypeOf = .boolT then
    match convertToZ3 c with
    | .error e => .error e
    | .ok z => .ok { st with generalConstraints := st.generalConstraints ++ [z] }
  else .ok st

/-- `Z3Analyzer::AddForallConstraint`: convert the body (again with no
try/catch, so failures propagate), quantify over the converted variables
(variable conversion itself cannot fail) and push the result. -/
def addForallConstraint (st : Z3State) (vars : List PVar) (body : PExpr) :
    Except ConvErr Z3State :=
  match convertToZ3 body with
  | .error e => .error e
  | .ok zb =>
      .ok { st with generalConstraints :=
              st.generalConstraints ++ [.zforall vars zb] }

/-- The antecedent `CanProve` builds: the conjunction (starting from
`bool_val(true)`) of every recorded per-variable constraint followed by
every general constraint. -/
def antecedent (st : Z3State) : ZExpr :=
  let a := st.varConstraints.foldl
    (fun acc p => p.2.foldl (fun acc e => ZExpr.zand acc e) acc) (.boolVal true)
  st.generalConstraints.foldl (fun acc e => ZExpr.zand acc e) a

/-- The possible outcomes of one bounded solver query: `unsat`, `sat`,
`unknown` (which is what a timeout of the 100ms budget produces), or an
internal exception. -/
inductive CheckResult
  | unsat
  | sat
  | unknown
  | threw
  deriving DecidableEq, Repr

/-- `Z3Analyzer::CanProve(cond)`: build the antecedent, convert `cond`
(inside the try block), ask the solver — configured with the fixed 100ms
timeout — for the satisfiability of the NEGATED implication
`antecedent => cond`, and return `true` exactly on `unsat`; `sat`,
`unknown`/timeout, a conversion failure and an internal exception all
return `false`. -/
def canProve (st : Z3State) (check : ZExpr → Nat → CheckResult) (cond : PExpr) :
    Bool :=
  match convertToZ3 cond with
  | .error _ => false
  | .ok consequent =>
      match check (.znot (.zimplies (antecedent st) consequent)) 100 with
      | .unsat => true
      | .sat => false
      | .unknown => false
      | .threw => false

/-- A fixed arbitrary valuation of constraint expressions (all variables 0,
uninterpreted functions 0, quantified formulas true), used to build one
concrete admissible truth assignment. -/
def zevalArb : ZExpr → Int
  | .zvar _ => 0
  | .intVal n => n
  | .boolVal b => if b then 1 else 0
  | .zadd a b => zevalArb a + zevalArb b
  | .zsub a b => zevalArb a - zevalArb b
  | .zmul a b => zevalArb a * zevalArb b
  | .zdiv a b => zevalArb a / zevalArb b
  | .zmod a b => zevalArb a % zevalArb b
  | .zmin a b => min (zevalArb a) (zevalArb b)
  | .zmax a b => max (zevalArb a) (zevalArb b)
  | .zeq a b => if zevalArb a = zevalArb b then 1 else 0
  | .zne a b => if zevalArb a = zevalArb b then 0 else 1
  | .zlt a b => if zevalArb a < zevalArb b then 1 else 0
  | .zle a b => if zevalArb a ≤ zevalArb b then 1 else 0
  | .zgt a b => if zevalArb b < zevalArb a then 1 else 0
  | .zge a b => if zevalArb b ≤ zevalArb a then 1 else 0
  | .zand a b => if zevalArb a ≠ 0 ∧ zevalArb b ≠ 0 then 1 else 0
  | .zor a b => if zevalArb a ≠ 0 ∨ zevalArb b ≠ 0 then 1 else 0
  | .znot a => if zevalArb a = 0 then 1 else 0
  | .zimplies a b => if zevalArb a = 0 ∨ zevalArb b ≠ 0 then 1 else 0
  | .zpw a b => zevalArb a ^ (zevalArb b).toNat
  | .ufLoad _ _ => 0
  | .ufCall _ _ => 0
  | .zforall _ _ => 1

/-- C3: `CanProve` returns `true` only when the solver refuted — within the
fixed 100-unit time budget — the negation of the implication whose antecedent
conjoins all recorded per-variable range facts and general facts; under any
truth assignment `M` respecting negation and implication for which the
solver is sound, a `true` answer entails that the recorded facts imply the
converted condition.  And `CanProve` returns `false` — never an error or an
"unknown" — whenever the conversion of `cond` fails or the solver answers
`sat`, answers `unknown` (the timeout outcome), or throws. -/
theorem z3_canProve_contract (st : Z3State) (check : ZExpr → Nat → CheckResult)
    (cond : PExpr) (M : ZExpr → Prop)
    (hnot : ∀ f, M (.znot f) ↔ ¬ M f)
    (himp : ∀ a b, M (.zimplies a b) ↔ (M a → M b))
    (hsound : ∀ f, check f 100 = .unsat → ¬ M f) :
    (canProve st check cond = true →
      ∃ c, convertToZ3 cond = .ok c ∧
        check (.znot (.zimplies (antecedent st) c)) 100 = .unsat ∧
        (M (antecedent st) → M c)) ∧
    (∀ e, convertToZ3 cond = .error e → canProve st check cond = false) ∧
    (∀ c, convertToZ3 cond = .ok c →
      check (.znot (.zimplies (antecedent st) c)) 100 ≠ .unsat →
      canProve st check cond = false) := by
  refine ⟨?_, ?_, ?_⟩
  · intro h
    cases hc : convertToZ3 cond with
    | error e => simp [canProve, hc] at h
    | ok c =>
        cases hr : check (.znot (.zimplies (antecedent st) c)) 100
        case unsat =>
          refine ⟨c, rfl, hr, ?_⟩
          intro hante
          have hnm := hsound _ hr
          rw [hnot] at hnm
          exact (himp _ _).mp (not_not.mp hnm) hante
        case sat => simp [canProve, hc, hr] at h
        case unknown => simp [canProve, hc, hr] at h
        case threw => simp [canProve, hc, hr] at h
  · intro e he
    simp [canProve, he]
  · intro c hc hne
    cases hr : check (.znot (.zimplies (antecedent st) c)) 100
    · exact absurd hr hne
    · simp [canProve, hc, hr]
    · simp [canProve, hc, hr]
    · simp [canProve, hc, hr]

/-- The concrete condition `0 < 1` used by the C3 witness. -/
def cond3 : PExpr := .ltE (.intImm 0) (.intImm 1)

/-- The negated implication `CanProve` submits for `cond3` under the empty
assumption state. -/
def f3 : ZExpr := .znot (.zimplies (.boolVal true) (.zlt (.intVal 0) (.intVal 1)))

/-- A concrete solver answering `unsat` exactly on `f3`. -/
def check3 : ZExpr → Nat → CheckResult :=
  fun f _ => if f = f3 then .unsat else .sat

/-- Witness for C3: at the empty assumption state, the solver `check3` and
condition `0 < 1`, `CanProve` answers `true` and the recorded facts imply
the condition under the valuation `zevalArb`. -/
theorem z3_canProve_contract_witness :
    canProve ⟨[], []⟩ check3 cond3 = true ∧
    (zevalArb (antecedent ⟨[], []⟩) ≠ 0 →
      zevalArb (ZExpr.zlt (.intVal 0) (.intVal 1)) ≠ 0) := by
  have hnot : ∀ f, (zevalArb (ZExpr.znot f) ≠ 0) ↔ ¬ zevalArb f ≠ 0 := by
    intro f
    by_cases h : zevalArb f = 0 <;> simp [zevalArb, h]
  have himp : ∀ a b, (zevalArb (ZExpr.zimplies a b) ≠ 0) ↔
      (zevalArb a ≠ 0 → zevalArb b ≠ 0) := by
    intro a b
    by_cases ha : zevalArb a = 0 <;> by_cases hb : zevalArb b = 0 <;>
      simp [zevalArb, ha, hb]
  have hsound : ∀ f, check3 f 100 = .unsat → ¬ zevalArb f ≠ 0 := by
    intro f h
    by_cases hf : f = f3
    · subst hf; decide
    · simp [check3, hf] at h
  have htrue : canProve ⟨[], []⟩ check3 cond3 = true := by rfl
  obtain ⟨c, hc, _, him⟩ :=
    (z3_canProve_contract ⟨[], []⟩ check3 cond3 (fun e => zevalArb e ≠ 0)
      hnot himp hsound).1 htrue
  have hcv : c = ZExpr.zlt (.intVal 0) (.intVal 1) := by
    have : convertToZ3 cond3 = .ok (ZExpr.zlt (.intVal 0) (.intVal 1)) := by rfl
    rw [this] at hc
    exact (Except.ok.inj hc).symm
  exact ⟨htrue, hcv ▸ him⟩

/-- C5 (counterexample): a boolean-typed expression the converter rejects —
a `SelectNode`, which falls into `VisitExprDefault_` — makes `AddConstraint`
and `AddForallConstraint` propagate the conversion error to the caller
instead of silently dropping the fact. -/
theorem addConstraint_propagates_error :
    addConstraint ⟨[], []⟩
        (.select .boolT (.intImm 1) (.intImm 0) (.intImm 1)) =
      .error .invalidArg ∧
    addForallConstraint ⟨[], []⟩ [.base 0]
        (.select .boolT (.intImm 1) (.intImm 0) (.intImm 1)) =
      .error .invalidArg := by
  exact ⟨rfl, rfl⟩

/-- C5 (amended): `AddConstraint` records integer immediates (as the constant
`true`, due to the pointer comparison in `bool_val(imm != 0)`) and
convertible boolean facts, silently drops facts that are neither integer
immediates nor boolean-typed, and returns normally in those cases; but an
unconvertible boolean-typed fact in `AddConstraint`, and an unconvertible
body in `AddForallConstraint`, propagate the conversion error to the
caller. -/
theorem addConstraint_amended (st : Z3State) :
    (∀ n : Int, addConstraint st (.intImm n) =
      .ok { st with generalConstraints := st.generalConstraints ++ [.boolVal true] }) ∧
    (∀ c : PExpr, isIntImm c = false → c.dtypeOf ≠ .boolT →
      addConstraint st c = .ok st) ∧
    (∀ (c : PExpr) (e : ConvErr), isIntImm c = false → c.dtypeOf = .boolT →
      convertToZ3 c = .error e → addConstraint st c = .error e) ∧
    (∀ (c : PExpr) (z : ZExpr), isIntImm c = false → c.dtypeOf = .boolT →
      convertToZ3 c = .ok z →
      addConstraint st c =
        .ok { st with generalConstraints := st.generalConstraints ++ [z] }) ∧
    (∀ (vs : List PVar) (b : PExpr) (e : ConvErr),
      convertToZ3 b = .error e → addForallConstraint st vs b = .error e) := by
  refine ⟨?_, ?_, ?_, ?_, ?_⟩
  · intro n; rfl
  · intro c h1 h2
    simp [addConstraint, h1, h2]
  · intro c e h1 h2 h3
    simp [addConstraint, h1, h2, h3]
  · intro c z h1 h2 h3
    simp [addConstraint, h1, h2, h3]
  · intro vs b e h
    simp [addForallConstraint, h]

/-- Witness for C5 (amended): a non-boolean, non-immediate fact (a float
immediate) is silently dropped; an unconvertible boolean fact propagates the
error. -/
theorem addConstraint_amended_witness :
    addConstraint ⟨[], []⟩ .floatImm = .ok ⟨[], []⟩ ∧
    addConstraint ⟨[], []⟩
        (.select .boolT (.intImm 1) (.intImm 0) (.intImm 1)) =
      .error .invalidArg := by
  constructor
  · exact (addConstraint_amended ⟨[], []⟩).2.1 .floatImm (by rfl) (by decide)
  · exact (addConstraint_amended ⟨[], []⟩).2.2.1 _ .invalidArg (by rfl)
      (by rfl) (by rfl)

/-! ## Loop-nest builder (`op_util.cc`: `IndexLoopVarDeps`,
`MakeLoopNestFromDependentVars`) -/

/-- An iteration range `[rmin, rmin + rext)`. -/
structure Range' where
  rmin : PExpr
  rext : PExpr
  deriving DecidableEq, Repr

/-- The resolved `ForType` of a materialized loop. -/
inductive ForType'
  | serial
  | parallel
  | vectorized
  | unrolled
  | peeled
  deriving DecidableEq, Repr

/-- One derived (non-loop) dimension of the computation: its index variable
`dvar` (`di->iv->var`) and `deps` — the stage's iteration variables its
derivation function transitively depends on, i.e. the variables whose state
bit is set after the external `PassDownBitMaskOr` propagation over
`di->ufun->dimensions`. -/
structure DimData where
  dvar : PVar
  deps : List PVar
  deriving DecidableEq, Repr

/-- One leaf iteration variable of the stage, with the schedule metadata the
builder consumes.  `skip` folds the skip conditions (`skip_iter`, `kOpaque`,
`kLoopNestOpaque`, `kSplit` and the `kSplit` iter-var attribute);
`bindTag`/`bindVar`/`isBound` describe `bind_iv` (equal to the variable
itself with an empty tag when no thread binding is attached); `dom` and
`bindDom` are `dom_map.at(iv)` and `dom_map.at(bind_iv)`; `forType` is the
loop type resolved from the iteration-type attribute; `depIdxVars` is
`index_vars_loop_vars_depend_on[iv->var]` as computed by
`IndexLoopVarDeps`. -/
structure LeafData where
  v : Nat
  skip : Bool
  bindTag : String
  bindVar : PVar
  isBound : Bool
  dom : Range'
  bindDom : Range'
  forType : ForType'
  pragmas : List (String × PExpr)
  prefetch : List (Nat × PExpr)
  depIdxVars : List PVar
  deriving DecidableEq, Repr

/-- The external expression oracles the builder calls: `tir::Simplify`,
`UninterpFun::RelaxComplexUninterpCalls` and
`UninterpFun::InlineUninterpFunCalls`. -/
structure ExtOps where
  simplifyE : PExpr → PExpr
  relaxE : PExpr → PExpr
  inlineE : PExpr → PExpr

/-- `tir::is_one` (syntactic). -/
def PExpr.isOne : PExpr → Bool
  | .intImm 1 => true
  | _ => false

/-- `tir::is_zero` (syntactic). -/
def PExpr.isZero : PExpr → Bool
  | .intImm 0 => true
  | _ => false

/-- `tir::is_positive_const` (syntactic). -/
def PExpr.isPosConst : PExpr → Bool
  | .intImm n => decide (0 < n)
  | _ => false

/-- The statements the builder can append to a `nest` level. -/
inductive NestItem
  | pragmaAttr (v : Nat) (key : String) (value : PExpr)
  | letBind (x : PVar) (e : PExpr)
  | forLoop (x : PVar) (extent : PExpr) (ft : ForType')
  | attrVirtualThread (x : PVar) (extent : PExpr)
  | attrPipelineScope (x : PVar) (extent : PExpr)
  | attrThreadExtent (x : PVar) (extent : PExpr)
  | attrLoopScope (v : Nat)
  | prefetchAttr (t : Nat) (off : PExpr)
  | indexBind (x : PVar)
  deriving DecidableEq, Repr

/-- `unordered_map` assignment: replace the binding if the key exists,
append it otherwise. -/
def updAL {α β : Type} [DecidableEq α] : List (α × β) → α → β → List (α × β)
  | [], k, v => [(k, v)]
  | (k', v') :: rest, k, v =>
      if k' = k then (k', v) :: rest else (k', v') :: updAL rest k v

/-- The builder's running state: the value map, the emitted nest items
tagged with the leaf position they belong to, the remaining-dependency
counters (`index_vars_dep_count`), the generated index and loop variable
sets, and a sticky flag recording that some `CHECK` failed (after which the
C++ aborts; every theorem below is about runs where it stays `false`). -/
structure BState where
  vmap : List (Nat × PExpr)
  nest : List (Nat × NestItem)
  counts : List (PVar × Int)
  genIdx : List PVar
  genLoop : List PVar
  fatal : Bool
  deriving DecidableEq, Repr

/-- The dependency leaf variables of a derived dimension that still need to
be generated: `IndexLoopVarDeps` counts a state-map entry when the variable
is a leaf variable (`generated_vars`) and not already in the incoming value
map (`already_generated_vars`). -/
def effDeps (leafVars : List Nat) (agen : List PVar) (d : DimData) : List PVar :=
  d.deps.filter (fun x => (leafVars.map PVar.base).contains x && !agen.contains x)

/-- `index_vars_loop_vars_are_needed_for[x]`: the derived dimensions
recorded against the leaf variable `x`. -/
def neededFor (dims : List DimData) (leafVars : List Nat) (agen : List PVar)
    (x : PVar) : List DimData :=
  dims.filter (fun d => (effDeps leafVars agen d).contains x)

/-- `index_vars_dep_count`: each derived dimension's remaining-dependency
counter, initialized by `IndexLoopVarDeps`. -/
def initCounts (dims : List DimData) (leafVars : List Nat) (agen : List PVar) :
    List (PVar × Int) :=
  dims.map (fun d => (d.dvar, ((effDeps leafVars agen d).length : Int)))

/-- One lookup of the cascade (the body of the `for (auto di : ...)` loop
inside the `while (generated_now.size() > 0)` loop): a dimension whose
counter is exactly 1 has just seen its last dependency satisfied — emit its
value binding, mark it generated and push its variable; a counter above 1 is
decremented; a dimension without a counter entry is ignored. -/
def cascadeHit (i : Nat) (sa : BState × List PVar) (d : DimData) :
    BState × List PVar :=
  match sa.1.counts.lookup d.dvar with
  | none => sa
  | some c =>
      if c = 1 then
        ({ sa.1 with nest := sa.1.nest ++ [(i, .indexBind d.dvar)],
                     genIdx := sa.1.genIdx ++ [d.dvar] },
         sa.2 ++ [d.dvar])
      else if 1 < c then
        ({ sa.1 with counts := updAL sa.1.counts d.dvar (c - 1) }, sa.2)
      else sa

/-- The `while (generated_now.size() > 0)` worklist (a LIFO stack, popped
from the back in the source; the head of the list is the top here).  The C++
loop terminates for the well-formed inputs assumed by the theorems below;
`fuel` bounds the number of iterations, and every theorem assumes enough of
it for the worklist to drain. -/
def runWorklist (nf : PVar → List DimData) (i : Nat) :
    Nat → List PVar → BState → BState
  | 0, _, s => s
  | _ + 1, [], s => s
  | fuel + 1, cur :: rest, s =>
      let out := (nf cur).foldl (cascadeHit i) (s, [])
      runWorklist nf i fuel (out.2.reverse ++ rest) out.1

/-- The range the builder actually materializes for a leaf variable: the
bound variable's range when thread-bound, the variable's own range — relaxed
by `RelaxComplexUninterpCalls` when some index-variable dependency of the
range is not yet generated — otherwise, with `InlineUninterpFunCalls`
applied at the end. -/
def effectiveDom (ext : ExtOps) (ld : LeafData) (genIdx : List PVar) : Range' :=
  let allSat := ld.depIdxVars.all (fun x => genIdx.contains x)
  let dom0 :=
    if ld.isBound then ld.bindDom
    else if !allSat then
      { rmin := ext.relaxE ld.dom.rmin, rext := ext.relaxE ld.dom.rext }
    else ld.dom
  { rmin := ext.inlineE dom0.rmin, rext := ext.inlineE dom0.rext }

/-- The per-leaf emission of `MakeLoopNestFromDependentVars`, as the triple
(items appended to `nest[i+1]`, the expression bound in the value map, did
some `CHECK` fail).  Branches, in source order: unbound variables get their
pragma annotations and then either a trivial-loop `let`, a zero-based `for`,
or a `for` over a fresh `.idx` variable plus a `let`, then prefetch
annotations (fatal on an extent-one loop); `vthread`/`cthread` and
`pipeline` bindings and other thread bindings get their attribute node and
value-map entries, with the zero-min/extent `CHECK`s; finally the
`loop_scope` attribute is appended unless `new_loop_var` is set. -/
def leafEmit (ext : ExtOps) (newLoopVar keepTrivial : Bool) (ld : LeafData)
    (genIdx : List PVar) : List NestItem × PExpr × Bool :=
  let dom := effectiveDom ext ld genIdx
  let var : PVar :=
    if ld.bindTag = "" && newLoopVar then .initv ld.v else ld.bindVar
  let core : List NestItem × PExpr × Bool :=
    if ld.bindTag = "" then
      let pragmaItems := ld.pragmas.map (fun p => NestItem.pragmaAttr ld.v p.1 p.2)
      let main : List NestItem × PExpr :=
        if !keepTrivial && (ext.simplifyE dom.rext).isOne then
          ([.letBind var dom.rmin], dom.rmin)
        else if dom.rmin.isZero then
          ([.forLoop var dom.rext ld.forType], .evar var)
        else
          ([.forLoop (.idx ld.v) dom.rext ld.forType,
            .letBind var (.add dom.rmin (.evar (.idx ld.v)))],
           .add dom.rmin (.evar (.idx ld.v)))
      let prefetchItems := ld.prefetch.map (fun p => NestItem.prefetchAttr p.1 p.2)
      let pfFatal := !ld.prefetch.isEmpty && dom.rext.isOne
      (pragmaItems ++ main.1 ++ prefetchItems, main.2, pfFatal)
    else if ld.bindTag = "vthread" || ld.bindTag = "cthread" then
      ([.attrVirtualThread ld.bindVar dom.rext], .evar var,
       !dom.rmin.isZero || !dom.rext.isPosConst)
    else if ld.bindTag = "pipeline" then
      ([.attrPipelineScope ld.bindVar dom.rext], dom.rmin,
       !dom.rmin.isZero || !dom.rext.isOne)
    else
      ([.attrThreadExtent ld.bindVar dom.rext],
       if !keepTrivial && dom.rext.isOne then dom.rmin else .evar var,
       !dom.rmin.isZero)
  if !newLoopVar then (core.1 ++ [.attrLoopScope ld.v], core.2.1, core.2.2)
  else core

/-- One iteration of the builder's main loop over the leaf variables: a
skipped variable is mapped to itself with nothing emitted and no cascade; an
unskipped one is recorded in `generated_loop_vars`, its branch emission is
appended, its value-map entry set, and the derived-dimension cascade run
seeded with the variable just generated. -/
def processLeaf (ext : ExtOps) (nf : PVar → List DimData)
    (newLoopVar keepTrivial : Bool) (fuel : Nat) (st : BState) (i : Nat)
    (ld : LeafData) : BState :=
  if ld.skip then
    { st with vmap := updAL st.vmap ld.v (.evar (.base ld.v)) }
  else
    let e := leafEmit ext newLoopVar keepTrivial ld st.genIdx
    let st1 : BState :=
      { st with
        genLoop := st.genLoop ++ [.base ld.v],
        nest := st.nest ++ e.1.map (fun it => (i, it)),
        vmap := updAL st.vmap ld.v e.2.1,
        fatal := st.fatal || e.2.2 }
    runWorklist nf i fuel [.base ld.v] st1

/-- The builder's loop from `begin_iter_pos` over the leaf variables (leaves
before `beginPos` are not visited at all). -/
def buildAux (ext : ExtOps) (nf : PVar → List DimData)
    (newLoopVar keepTrivial : Bool) (fuel beginPos : Nat) :
    List LeafData → Nat → BState → BState
  | [], _, st => st
  | ld :: rest, i, st =>
      buildAux ext nf newLoopVar keepTrivial fuel beginPos rest (i + 1)
        (if i < beginPos then st
         else processLeaf ext nf newLoopVar keepTrivial fuel st i ld)

/-- The initial builder state: the incoming value map and the dependency
counters computed by `IndexLoopVarDeps`. -/
def initBState (dims : List DimData) (leafVars : List Nat) (agen : List PVar)
    (vmap0 : List (Nat × PExpr)) : BState :=
  { vmap := vmap0, nest := [], counts := initCounts dims leafVars agen,
    genIdx := [], genLoop := [], fatal := false }

/-- `MakeLoopNestFromDependentVars` together with the dependency maps of
`IndexLoopVarDeps` it consumes: `already_generated_vars` is derived from the
incoming value map, `generated_vars` from the leaf list. -/
def buildLoopNest (ext : ExtOps) (dims : List DimData) (leafData : List LeafData)
    (vmap0 : List (Nat × PExpr)) (newLoopVar keepTrivial : Bool)
    (beginPos fuel : Nat) : BState :=
  let leafVars := leafData.map (fun ld => ld.v)
  let agen := vmap0.map (fun p => PVar.base p.1)
  buildAux ext (neededFor dims leafVars agen) newLoopVar keepTrivial fuel
    beginPos leafData 0 (initBState dims leafVars agen vmap0)

/-- The `indexBind` emissions for a given derived-dimension variable. -/
def ems (dv : PVar) (s : BState) : List (Nat × NestItem) :=
  s.nest.filter (fun p => p.2 == NestItem.indexBind dv)

theorem lookup_updAL_self {α β : Type} [DecidableEq α] :
    ∀ (l : List (α × β)) (k : α) (v : β), (updAL l k v).lookup k = some v := by
  intro l k v
  induction l with
  | nil => simp [updAL, List.lookup]
  | cons p rest ih =>
      obtain ⟨k', v'⟩ := p
      by_cases h : k' = k
      · subst h; simp [updAL, List.lookup]
      · have hbeq : (k == k') = false := beq_eq_false_iff_ne.mpr (Ne.symm h)
        simp only [updAL, h, if_false, List.lookup, hbeq]
        exact ih

theorem lookup_updAL_ne {α β : Type} [DecidableEq α] :
    ∀ (l : List (α × β)) (k k' : α) (v : β), k' ≠ k →
      (updAL l k v).lookup k' = l.lookup k' := by
  intro l k k' v hne
  have hbeq : (k' == k) = false := beq_eq_false_iff_ne.mpr hne
  induction l with
  | nil => simp [updAL, List.lookup, hbeq]
  | cons p rest ih =>
      obtain ⟨a, b⟩ := p
      by_cases h : a = k
      · subst h
        simp [updAL, List.lookup, hbeq]
      · simp only [updAL, h, if_false, List.lookup]
        cases hab : k' == a <;> simp [ih]

theorem cascadeHit_other (i : Nat) (dv : PVar) (sa : BState × List PVar)
    (d : DimData) (h : d.dvar ≠ dv) :
    (cascadeHit i sa d).1.counts.lookup dv = sa.1.counts.lookup dv ∧
    ems dv (cascadeHit i sa d).1 = ems dv sa.1 := by
  unfold cascadeHit
  cases hl : sa.1.counts.lookup d.dvar with
  | none => exact ⟨rfl, rfl⟩
  | some c =>
      by_cases h1 : c = 1
      · simp [h1, ems, List.filter_append, h]
      · by_cases h2 : 1 < c
        · simp [h1, h2,
            lookup_updAL_ne sa.1.counts d.dvar dv (c - 1) (Ne.symm h), ems]
        · simp [h1, h2]

theorem cascadeHit_self (i : Nat) (sa : BState × List PVar) (d0 : DimData)
    (c0 : Int) (hc : sa.1.counts.lookup d0.dvar = some c0) :
    (c0 = 1 →
      (cascadeHit i sa d0).1.counts.lookup d0.dvar = some 1 ∧
      ems d0.dvar (cascadeHit i sa d0).1 =
        ems d0.dvar sa.1 ++ [(i, .indexBind d0.dvar)]) ∧
    (1 < c0 →
      (cascadeHit i sa d0).1.counts.lookup d0.dvar = some (c0 - 1) ∧
      ems d0.dvar (cascadeHit i sa d0).1 = ems d0.dvar sa.1) := by
  constructor
  · intro h1
    subst h1
    simp [cascadeHit, hc, ems, List.filter_append]
  · intro h2
    have h1 : ¬ (c0 = 1) := by omega
    simp [cascadeHit, hc, h1, h2, lookup_updAL_self, ems]

theorem cascadeFold_frame (i : Nat) (dv : PVar) :
    ∀ (L : List DimData) (sa : BState × List PVar),
      (∀ d ∈ L, d.dvar ≠ dv) →
      ((L.foldl (cascadeHit i) sa).1.counts.lookup dv = sa.1.counts.lookup dv ∧
       ems dv (L.foldl (cascadeHit i) sa).1 = ems dv sa.1) := by
  intro L
  induction L with
  | nil => intro sa _; exact ⟨rfl, rfl⟩
  | cons d rest ih =>
      intro sa hall
      have hd : d.dvar ≠ dv := hall d (List.mem_cons_self d rest)
      have hrest : ∀ d' ∈ rest, d'.dvar ≠ dv :=
        fun d' h' => hall d' (List.mem_cons_of_mem d h')
      obtain ⟨hstep1, hstep2⟩ := cascadeHit_other i dv sa d hd
      obtain ⟨ih1, ih2⟩ := ih (cascadeHit i sa d) hrest
      exact ⟨by rw [List.foldl_cons, ih1, hstep1],
             by rw [List.foldl_cons, ih2, hstep2]⟩

theorem cascadeFold_pushes (i : Nat) :
    ∀ (L : List DimData) (sa : BState × List PVar),
      ∃ extra, (L.foldl (cascadeHit i) sa).2 = sa.2 ++ extra ∧
        (∀ x ∈ extra, x ∈ L.map (fun d => d.dvar)) ∧
        extra.length ≤ L.length := by
  intro L
  induction L with
  | nil => intro sa; exact ⟨[], by simp, by simp, by simp⟩
  | cons d rest ih =>
      intro sa
      obtain ⟨extra, h1, h2, h3⟩ := ih (cascadeHit i sa d)
      have hstep : (cascadeHit i sa d).2 = sa.2 ∨
          (cascadeHit i sa d).2 = sa.2 ++ [d.dvar] := by
        unfold cascadeHit
        cases hl : sa.1.counts.lookup d.dvar with
        | none => exact Or.inl rfl
        | some c =>
            by_cases h1' : c = 1
            · simp [h1']
            · by_cases h2' : 1 < c <;> simp [h1', h2']
      rcases hstep with hstep | hstep
      · refine ⟨extra, ?_, ?_, ?_⟩
        · rw [List.foldl_cons, h1, hstep]
        · intro x hx; exact List.mem_cons_of_mem _ (h2 x hx)
        · simpa using Nat.le_succ_of_le h3
      · refine ⟨d.dvar :: extra, ?_, ?_, ?_⟩
        · rw [List.foldl_cons, h1, hstep, List.append_assoc]; rfl
        · intro x hx
          rcases List.mem_cons.mp hx with h | h
          · subst h; exact List.mem_cons_self _ _
          · exact List.mem_cons_of_mem _ (h2 x h)
        · simpa using Nat.succ_le_succ h3

theorem runWorklist_inert (nf : PVar → List DimData) (i : Nat) :
    ∀ (fuel : Nat) (stack : List PVar) (s : BState),
      (∀ x ∈ stack, nf x = []) → stack.length ≤ fuel →
      runWorklist nf i fuel stack s = s := by
  intro fuel
  induction fuel with
  | zero =>
      intro stack s _ hlen
      cases stack with
      | nil => rfl
      | cons x rest => simp at hlen
  | succ f ih =>
      intro stack s hin hlen
      cases stack with
      | nil => rfl
      | cons x rest =>
          have hx : nf x = [] := hin x (List.mem_cons_self x rest)
          show runWorklist nf i (f + 1) (x :: rest) s = s
          rw [runWorklist]
          rw [hx]
          simp only [List.foldl_nil, List.reverse_nil, List.nil_append]
          exact ih rest s (fun y hy => hin y (List.mem_cons_of_mem x hy))
            (by simpa using Nat.le_of_succ_le_succ hlen)

theorem runWorklist_single (nf : PVar → List DimData) (i fuel : Nat) (w : PVar)
    (s : BState)
    (hin : ∀ x ∈ (nf w).map (fun d => d.dvar), nf x = [])
    (hfuel : (nf w).length + 2 ≤ fuel) :
    runWorklist nf i fuel [w] s = ((nf w).foldl (cascadeHit i) (s, [])).1 := by
  cases fuel with
  | zero => omega
  | succ f =>
      rw [runWorklist]
      obtain ⟨extra, h1, h2, h3⟩ := cascadeFold_pushes i (nf w) (s, [])
      rw [show ((nf w).foldl (cascadeHit i) (s, [])).2.reverse ++ [] =
            ((nf w).foldl (cascadeHit i) (s, [])).2.reverse from by simp]
      apply runWorklist_inert
      · intro x hx
        rw [h1] at hx
        simp only [List.nil_append, List.mem_reverse] at hx
        exact hin x (h2 x hx)
      · rw [h1]
        simp only [List.nil_append, List.length_reverse]
        omega

theorem neededFor_eq_nil (dims : List DimData) (leafVars : List Nat)
    (agen : List PVar) (x : PVar) (hx : x ∉ leafVars.map PVar.base) :
    neededFor dims leafVars agen x = [] := by
  unfold neededFor
  rw [List.filter_eq_nil_iff]
  intro d _
  intro hcon
  have hmem : x ∈ d.deps ∧ (∃ a ∈ leafVars, PVar.base a = x) ∧ x ∉ agen := by
    simpa [effDeps] using hcon
  obtain ⟨a, ha, hax⟩ := hmem.2.1
  exact hx (List.mem_map.mpr ⟨a, ha, hax⟩)

theorem dims_decomp (dims : List DimData) (d0 : DimData)
    (hmem : d0 ∈ dims) (hnd : (dims.map (fun d => d.dvar)).Nodup) :
    ∃ A B, dims = A ++ d0 :: B ∧
      (∀ d ∈ A, d.dvar ≠ d0.dvar) ∧ (∀ d ∈ B, d.dvar ≠ d0.dvar) := by
  obtain ⟨A, B, rfl⟩ := List.append_of_mem hmem
  rw [List.map_append, List.map_cons] at hnd
  rw [List.nodup_append] at hnd
  obtain ⟨_, hndB, hdisj⟩ := hnd
  refine ⟨A, B, rfl, ?_, ?_⟩
  · intro d hd heq
    exact hdisj (List.mem_map_of_mem _ hd) (by rw [heq]; exact List.mem_cons_self _ _)
  · intro d hd heq
    rw [List.nodup_cons] at hndB
    exact hndB.1 (heq ▸ List.mem_map_of_mem _ hd)

theorem cascadeFold_effect (dims : List DimData) (leafVars : List Nat)
    (agen : List PVar) (i : Nat) (d0 : DimData) (w : PVar)
    (hmem : d0 ∈ dims) (hnd : (dims.map (fun d => d.dvar)).Nodup)
    (s : BState) (c0 : Int)
    (hc : s.counts.lookup d0.dvar = some c0) :
    (w ∉ effDeps leafVars agen d0 →
      ((neededFor dims leafVars agen w).foldl (cascadeHit i) (s, [])).1.counts.lookup
          d0.dvar = some c0 ∧
      ems d0.dvar ((neededFor dims leafVars agen w).foldl (cascadeHit i) (s, [])).1 =
        ems d0.dvar s) ∧
    (w ∈ effDeps leafVars agen d0 →
      (c0 = 1 →
        ((neededFor dims leafVars agen w).foldl (cascadeHit i) (s, [])).1.counts.lookup
            d0.dvar = some 1 ∧
        ems d0.dvar ((neededFor dims leafVars agen w).foldl (cascadeHit i) (s, [])).1 =
          ems d0.dvar s ++ [(i, .indexBind d0.dvar)]) ∧
      (1 < c0 →
        ((neededFor dims leafVars agen w).foldl (cascadeHit i) (s, [])).1.counts.lookup
            d0.dvar = some (c0 - 1) ∧
        ems d0.dvar ((neededFor dims leafVars agen w).foldl (cascadeHit i) (s, [])).1 =
          ems d0.dvar s)) := by
  obtain ⟨A, B, hAB, hA, hB⟩ := dims_decomp dims d0 hmem hnd
  constructor
  · intro hno
    have hp0 : ((effDeps leafVars agen d0).contains w) = false := by
      rw [Bool.eq_false_iff]
      intro hcon
      exact hno (by simpa using hcon)
    have hsplit : neededFor dims leafVars agen w =
        (A.filter (fun d => (effDeps leafVars agen d).contains w)) ++
        (B.filter (fun d => (effDeps leafVars agen d).contains w)) := by
      rw [hAB]
      unfold neededFor
      rw [List.filter_append, List.filter_cons, hp0]
      simp
    rw [hsplit, List.foldl_append]
    have hAfr := cascadeFold_frame i d0.dvar
      (A.filter (fun d => (effDeps leafVars agen d).contains w)) (s, [])
      (fun d hd => hA d (List.mem_of_mem_filter hd))
    have hBfr := cascadeFold_frame i d0.dvar
      (B.filter (fun d => (effDeps leafVars agen d).contains w))
      ((A.filter (fun d => (effDeps leafVars agen d).contains w)).foldl
        (cascadeHit i) (s, []))
      (fun d hd => hB d (List.mem_of_mem_filter hd))
    exact ⟨by rw [hBfr.1, hAfr.1, hc], by rw [hBfr.2, hAfr.2]⟩
  · intro hyes
    have hp0 : ((effDeps leafVars agen d0).contains w) = true := by
      simpa using hyes
    have hsplit : neededFor dims leafVars agen w =
        (A.filter (fun d => (effDeps leafVars agen d).contains w)) ++
        d0 :: (B.filter (fun d => (effDeps leafVars agen d).contains w)) := by
      rw [hAB]
      unfold neededFor
      rw [List.filter_append, List.filter_cons, hp0]
      simp
    have hAfr := cascadeFold_frame i d0.dvar
      (A.filter (fun d => (effDeps leafVars agen d).contains w)) (s, [])
      (fun d hd => hA d (List.mem_of_mem_filter hd))
    have hhit := cascadeHit_self i
      ((A.filter (fun d => (effDeps leafVars agen d).contains w)).foldl
        (cascadeHit i) (s, [])) d0 c0 (by rw [hAfr.1, hc])
    constructor
    · intro h1
      obtain ⟨hcnt, hems⟩ := hhit.1 h1
      have hBfr := cascadeFold_frame i d0.dvar
        (B.filter (fun d => (effDeps leafVars agen d).contains w))
        (cascadeHit i
          ((A.filter (fun d => (effDeps leafVars agen d).contains w)).foldl
            (cascadeHit i) (s, [])) d0)
        (fun d hd => hB d (List.mem_of_mem_filter hd))
      rw [hsplit, List.foldl_append, List.foldl_cons]
      exact ⟨by rw [hBfr.1, hcnt], by rw [hBfr.2, hems, hAfr.2]⟩
    · intro h2
      obtain ⟨hcnt, hems⟩ := hhit.2 h2
      have hBfr := cascadeFold_frame i d0.dvar
        (B.filter (fun d => (effDeps leafVars agen d).contains w))
        (cascadeHit i
          ((A.filter (fun d => (effDeps leafVars agen d).contains w)).foldl
            (cascadeHit i) (s, [])) d0)
        (fun d hd => hB d (List.mem_of_mem_filter hd))
      rw [hsplit, List.foldl_append, List.foldl_cons]
      exact ⟨by rw [hBfr.1, hcnt], by rw [hBfr.2, hems, hAfr.2]⟩

/-- Does a nest item bind a derived index variable? -/
def NestItem.isIndexBind : NestItem → Bool
  | .indexBind _ => true
  | _ => false

theorem leafEmit_all_not_indexBind (ext : ExtOps) (nlv kt : Bool)
    (ld : LeafData) (genIdx : List PVar) :
    ((leafEmit ext nlv kt ld genIdx).1.all (fun it => ! it.isIndexBind)) = true := by
  unfold leafEmit
  dsimp only
  repeat' split
  all_goals
    simp only [List.all_append, List.all_map, Function.comp,
      List.all_eq_true, Bool.and_eq_true, List.all_cons, List.all_nil,
      Bool.not_eq_eq_eq_not, Bool.not_false]
  all_goals simp [NestItem.isIndexBind]
  all_goals
    constructor <;> (intro x a b hmem heq; subst heq; rfl)

theorem filter_ib_append (dv : PVar) (l : List (Nat × NestItem)) (i : Nat)
    (items : List NestItem) (h : items.all (fun it => ! it.isIndexBind) = true) :
    (l ++ items.map (fun it => (i, it))).filter
        (fun p => p.2 == NestItem.indexBind dv) =
      l.filter (fun p => p.2 == NestItem.indexBind dv) := by
  rw [List.filter_append]
  have hnil : (items.map (fun it => (i, it))).filter
      (fun p => p.2 == NestItem.indexBind dv) = [] := by
    rw [List.filter_eq_nil_iff]
    intro p hp
    obtain ⟨it, hit, rfl⟩ := List.mem_map.mp hp
    rw [List.all_eq_true] at h
    have hib := h it hit
    intro hcon
    rw [beq_iff_eq] at hcon
    rw [show ((i, it) : Nat × NestItem).2 = it from rfl] at hcon
    subst hcon
    simp [NestItem.isIndexBind] at hib
  rw [hnil, List.append_nil]

theorem processLeaf_noHit (ext : ExtOps) (dims : List DimData)
    (leafVars : List Nat) (agen : List PVar) (nlv kt : Bool) (fuel i : Nat)
    (d0 : DimData) (ld : LeafData)
    (hmem : d0 ∈ dims) (hnd : (dims.map (fun d => d.dvar)).Nodup)
    (hinert : ∀ d ∈ dims, d.dvar ∉ leafVars.map PVar.base)
    (hfuel : dims.length + 2 ≤ fuel)
    (hP : PVar.base ld.v ∉ effDeps leafVars agen d0)
    (s : BState) (c : Int) (hc : s.counts.lookup d0.dvar = some c) :
    (processLeaf ext (neededFor dims leafVars agen) nlv kt fuel s i ld).counts.lookup
        d0.dvar = some c ∧
    ems d0.dvar (processLeaf ext (neededFor dims leafVars agen) nlv kt fuel s i ld) =
      ems d0.dvar s := by
  by_cases hs : ld.skip
  · simp [processLeaf, hs, ems, hc]
  · rw [processLeaf, if_neg hs]
    set e := leafEmit ext nlv kt ld s.genIdx with he
    set st1 : BState :=
      { s with
        genLoop := s.genLoop ++ [.base ld.v],
        nest := s.nest ++ e.1.map (fun it => (i, it)),
        vmap := updAL s.vmap ld.v e.2.1,
        fatal := s.fatal || e.2.2 } with hst1
    have hc1 : st1.counts.lookup d0.dvar = some c := hc
    have hems1 : ems d0.dvar st1 = ems d0.dvar s := by
      show (s.nest ++ e.1.map (fun it => (i, it))).filter
          (fun p => p.2 == NestItem.indexBind d0.dvar) = _
      exact filter_ib_append d0.dvar s.nest i e.1
        (he ▸ leafEmit_all_not_indexBind ext nlv kt ld s.genIdx)
    have hsingle := runWorklist_single (neededFor dims leafVars agen) i fuel
      (PVar.base ld.v) st1
      (fun x hx => by
        obtain ⟨d, hd, rfl⟩ := List.mem_map.mp hx
        have hdd : d ∈ dims := List.mem_of_mem_filter hd
        exact neededFor_eq_nil dims leafVars agen d.dvar (hinert d hdd))
      (by
        have : (neededFor dims leafVars agen (PVar.base ld.v)).length ≤ dims.length :=
          List.length_filter_le _ _
        omega)
    rw [hsingle]
    have heff := cascadeFold_effect dims leafVars agen i d0 (PVar.base ld.v)
      hmem hnd st1 c hc1
    obtain ⟨h1, h2⟩ := heff.1 hP
    exact ⟨h1, by rw [h2, hems1]⟩

theorem processLeaf_hit (ext : ExtOps) (dims : List DimData)
    (leafVars : List Nat) (agen : List PVar) (nlv kt : Bool) (fuel i : Nat)
    (d0 : DimData) (ld : LeafData)
    (hmem : d0 ∈ dims) (hnd : (dims.map (fun d => d.dvar)).Nodup)
    (hinert : ∀ d ∈ dims, d.dvar ∉ leafVars.map PVar.base)
    (hfuel : dims.length + 2 ≤ fuel)
    (hP : PVar.base ld.v ∈ effDeps leafVars agen d0)
    (hskip : ld.skip = false)
    (s : BState) (c : Int) (hc : s.counts.lookup d0.dvar = some c) :
    (c = 1 →
      (processLeaf ext (neededFor dims leafVars agen) nlv kt fuel s i ld).counts.lookup
          d0.dvar = some 1 ∧
      ems d0.dvar (processLeaf ext (neededFor dims leafVars agen) nlv kt fuel s i ld) =
        ems d0.dvar s ++ [(i, .indexBind d0.dvar)]) ∧
    (1 < c →
      (processLeaf ext (neededFor dims leafVars agen) nlv kt fuel s i ld).counts.lookup
          d0.dvar = some (c - 1) ∧
      ems d0.dvar (processLeaf ext (neededFor dims leafVars agen) nlv kt fuel s i ld) =
        ems d0.dvar s) := by
  rw [processLeaf, if_neg (by rw [hskip]; exact Bool.false_ne_true)]
  set e := leafEmit ext nlv kt ld s.genIdx with he
  set st1 : BState :=
    { s with
      genLoop := s.genLoop ++ [.base ld.v],
      nest := s.nest ++ e.1.map (fun it => (i, it)),
      vmap := updAL s.vmap ld.v e.2.1,
      fatal := s.fatal || e.2.2 } with hst1
  have hc1 : st1.counts.lookup d0.dvar = some c := hc
  have hems1 : ems d0.dvar st1 = ems d0.dvar s := by
    show (s.nest ++ e.1.map (fun it => (i, it))).filter
        (fun p => p.2 == NestItem.indexBind d0.dvar) = _
    exact filter_ib_append d0.dvar s.nest i e.1
      (he ▸ leafEmit_all_not_indexBind ext nlv kt ld s.genIdx)
  have hsingle := runWorklist_single (neededFor dims leafVars agen) i fuel
    (PVar.base ld.v) st1
    (fun x hx => by
      obtain ⟨d, hd, rfl⟩ := List.mem_map.mp hx
      have hdd : d ∈ dims := List.mem_of_mem_filter hd
      exact neededFor_eq_nil dims leafVars agen d.dvar (hinert d hdd))
    (by
      have : (neededFor dims leafVars agen (PVar.base ld.v)).length ≤ dims.length :=
        List.length_filter_le _ _
      omega)
  rw [hsingle]
  have heff := cascadeFold_effect dims leafVars agen i d0 (PVar.base ld.v)
    hmem hnd st1 c hc1
  constructor
  · intro h1
    obtain ⟨ha, hb⟩ := (heff.2 hP).1 h1
    exact ⟨ha, by rw [hb, hems1]⟩
  · intro h2
    obtain ⟨ha, hb⟩ := (heff.2 hP).2 h2
    exact ⟨ha, by rw [hb, hems1]⟩

theorem cascadeHit_lb (i : Nat) (dv : PVar) (sa : BState × List PVar)
    (d : DimData) (c : Int) (hc : sa.1.counts.lookup dv = some c) (hlb : 1 ≤ c) :
    ∃ c', (cascadeHit i sa d).1.counts.lookup dv = some c' ∧ 1 ≤ c' := by
  by_cases hd : d.dvar = dv
  · subst hd
    by_cases h1 : c = 1
    · exact ⟨c, by simp [cascadeHit, hc, h1], hlb⟩
    · by_cases h2 : 1 < c
      · exact ⟨c - 1, by simp [cascadeHit, hc, h1, h2, lookup_updAL_self],
          by omega⟩
      · exact ⟨c, by simp [cascadeHit, hc, h1, h2], hlb⟩
  · obtain ⟨hcounts, _⟩ := cascadeHit_other i dv sa d hd
    exact ⟨c, by rw [hcounts, hc], hlb⟩

theorem cascadeFold_lb (i : Nat) (dv : PVar) :
    ∀ (L : List DimData) (sa : BState × List PVar) (c : Int),
      sa.1.counts.lookup dv = some c → 1 ≤ c →
      ∃ c', (L.foldl (cascadeHit i) sa).1.counts.lookup dv = some c' ∧ 1 ≤ c' := by
  intro L
  induction L with
  | nil => intro sa c hc hlb; exact ⟨c, hc, hlb⟩
  | cons d rest ih =>
      intro sa c hc hlb
      obtain ⟨c', hc', hlb'⟩ := cascadeHit_lb i dv sa d c hc hlb
      exact ih (cascadeHit i sa d) c' hc' hlb'

theorem runWorklist_lb (nf : PVar → List DimData) (i : Nat) (dv : PVar) :
    ∀ (fuel : Nat) (stack : List PVar) (s : BState) (c : Int),
      s.counts.lookup dv = some c → 1 ≤ c →
      ∃ c', (runWorklist nf i fuel stack s).counts.lookup dv = some c' ∧ 1 ≤ c' := by
  intro fuel
  induction fuel with
  | zero => intro stack s c hc hlb; exact ⟨c, hc, hlb⟩
  | succ f ih =>
      intro stack s c hc hlb
      cases stack with
      | nil => exact ⟨c, hc, hlb⟩
      | cons cur rest =>
          rw [runWorklist]
          obtain ⟨c', hc', hlb'⟩ := cascadeFold_lb i dv (nf cur) (s, []) c hc hlb
          exact ih _ _ c' hc' hlb'

theorem processLeaf_lb (ext : ExtOps) (nf : PVar → List DimData)
    (nlv kt : Bool) (fuel i : Nat) (dv : PVar) (ld : LeafData)
    (s : BState) (c : Int) (hc : s.counts.lookup dv = some c) (hlb : 1 ≤ c) :
    ∃ c', (processLeaf ext nf nlv kt fuel s i ld).counts.lookup dv = some c' ∧
      1 ≤ c' := by
  by_cases hs : ld.skip
  · exact ⟨c, by simp [processLeaf, hs, hc], hlb⟩
  · rw [processLeaf, if_neg hs]
    exact runWorklist_lb nf i dv fuel _ _ c hc hlb

theorem buildAux_lb (ext : ExtOps) (nf : PVar → List DimData)
    (nlv kt : Bool) (fuel beginPos : Nat) (dv : PVar) :
    ∀ (ls : List LeafData) (i : Nat) (s : BState) (c : Int),
      s.counts.lookup dv = some c → 1 ≤ c →
      ∃ c', (buildAux ext nf nlv kt fuel beginPos ls i s).counts.lookup dv =
        some c' ∧ 1 ≤ c' := by
  intro ls
  induction ls with
  | nil => intro i s c hc hlb; exact ⟨c, hc, hlb⟩
  | cons ld rest ih =>
      intro i s c hc hlb
      rw [buildAux]
      by_cases hi : i < beginPos
      · rw [if_pos hi]
        exact ih (i + 1) s c hc hlb
      · rw [if_neg hi]
        obtain ⟨c', hc', hlb'⟩ :=
          processLeaf_lb ext nf nlv kt fuel i dv ld s c hc hlb
        exact ih (i + 1) _ c' hc' hlb'

theorem lookup_append_fresh {α β : Type} [DecidableEq α] (k : α) :
    ∀ (l1 l2 : List (α × β)), (∀ p ∈ l1, p.1 ≠ k) →
      (l1 ++ l2).lookup k = l2.lookup k := by
  intro l1 l2 h
  induction l1 with
  | nil => rfl
  | cons p rest ih =>
      obtain ⟨a, b⟩ := p
      have hka : (k == a) = false :=
        beq_eq_false_iff_ne.mpr
          (fun he => (h (a, b) (List.mem_cons_self _ _)) he.symm)
      simp only [List.cons_append, List.lookup, hka]
      exact ih (fun q hq => h q (List.mem_cons_of_mem _ hq))

theorem lookup_initCounts (dims : List DimData) (leafVars : List Nat)
    (agen : List PVar) (d0 : DimData)
    (hmem : d0 ∈ dims) (hnd : (dims.map (fun d => d.dvar)).Nodup) :
    (initCounts dims leafVars agen).lookup d0.dvar =
      some ((effDeps leafVars agen d0).length : Int) := by
  obtain ⟨A, B, hAB, hA, hB⟩ := dims_decomp dims d0 hmem hnd
  rw [hAB]
  unfold initCounts
  rw [List.map_append, List.map_cons]
  rw [lookup_append_fresh d0.dvar _ _
    (fun p hp => by
      obtain ⟨d, hd, rfl⟩ := List.mem_map.mp hp
      exact hA d hd)]
  simp [List.lookup]

theorem length_filter_mem_eq :
    ∀ (ls : List LeafData) (D : List PVar), D.Nodup →
      (∀ x ∈ D, x ∈ ls.map (fun ld => PVar.base ld.v)) →
      (ls.map (fun ld => ld.v)).Nodup →
      (ls.filter (fun ld => decide (PVar.base ld.v ∈ D))).length = D.length := by
  intro ls
  induction ls with
  | nil =>
      intro D _ hsub _
      have : D = [] := List.eq_nil_iff_forall_not_mem.mpr
        (fun x hx => by simpa using hsub x hx)
      simp [this]
  | cons ld rest ih =>
      intro D hD hsub hnd
      rw [List.map_cons, List.nodup_cons] at hnd
      by_cases hP : PVar.base ld.v ∈ D
      · rw [List.filter_cons_of_pos (by simpa using hP)]
        have hrw : rest.filter (fun ld' => decide (PVar.base ld'.v ∈ D)) =
            rest.filter (fun ld' =>
              decide (PVar.base ld'.v ∈ D.erase (PVar.base ld.v))) := by
          apply List.filter_congr
          intro ld' hld'
          have hne : PVar.base ld'.v ≠ PVar.base ld.v := by
            intro he
            exact hnd.1 (PVar.base.inj he ▸ List.mem_map_of_mem _ hld')
          simp [List.mem_erase_of_ne hne]
        have hsub' : ∀ x ∈ D.erase (PVar.base ld.v),
            x ∈ rest.map (fun ld' => PVar.base ld'.v) := by
          intro x hx
          have hxD : x ∈ D := List.mem_of_mem_erase hx
          have hxne : x ≠ PVar.base ld.v := ((hD.mem_erase_iff).mp hx).1
          rcases (by simpa using hsub x hxD :
              x = PVar.base ld.v ∨ ∃ a ∈ rest, PVar.base a.v = x) with
            h | ⟨a, ha, hax⟩
          · exact absurd h hxne
          · exact List.mem_map.mpr ⟨a, ha, hax⟩
        have hih := ih (D.erase (PVar.base ld.v)) (hD.erase _) hsub' hnd.2
        have hlen := List.length_erase_of_mem hP
        have hpos : 1 ≤ D.length := List.length_pos_of_mem hP
        rw [hrw]
        simp only [List.length_cons, hih, hlen]
        omega
      · rw [List.filter_cons_of_neg (by simpa using hP)]
        apply ih D hD ?_ hnd.2
        intro x hx
        rcases (by simpa using hsub x hx :
            x = PVar.base ld.v ∨ ∃ a ∈ rest, PVar.base a.v = x) with
          h | ⟨a, ha, hax⟩
        · exact absurd (h ▸ hx) hP
        · exact List.mem_map.mpr ⟨a, ha, hax⟩

theorem buildAux_no_dep_frame (ext : ExtOps) (dims : List DimData)
    (leafVars : List Nat) (agen : List PVar) (nlv kt : Bool)
    (fuel beginPos : Nat) (d0 : DimData)
    (hmem : d0 ∈ dims) (hnd : (dims.map (fun d => d.dvar)).Nodup)
    (hinert : ∀ d ∈ dims, d.dvar ∉ leafVars.map PVar.base)
    (hfuel : dims.length + 2 ≤ fuel) :
    ∀ (rest : List LeafData) (i : Nat) (s : BState) (c : Int),
      (∀ ld ∈ rest, PVar.base ld.v ∉ effDeps leafVars agen d0) →
      s.counts.lookup d0.dvar = some c →
      ((buildAux ext (neededFor dims leafVars agen) nlv kt fuel beginPos
          rest i s).counts.lookup d0.dvar = some c ∧
       ems d0.dvar (buildAux ext (neededFor dims leafVars agen) nlv kt fuel
          beginPos rest i s) = ems d0.dvar s) := by
  intro rest
  induction rest with
  | nil => intro i s c _ hc; exact ⟨hc, rfl⟩
  | cons ld rest' ih =>
      intro i s c hall hc
      rw [buildAux]
      by_cases hi : i < beginPos
      · rw [if_pos hi]
        exact ih (i + 1) s c
          (fun ld' h => hall ld' (List.mem_cons_of_mem _ h)) hc
      · rw [if_neg hi]
        obtain ⟨h1, h2⟩ := processLeaf_noHit ext dims leafVars agen nlv kt
          fuel i d0 ld hmem hnd hinert hfuel
          (hall ld (List.mem_cons_self _ _)) s c hc
        obtain ⟨h3, h4⟩ := ih (i + 1) _ c
          (fun ld' h => hall ld' (List.mem_cons_of_mem _ h)) h1
        exact ⟨h3, by rw [h4, h2]⟩

theorem buildAux_dep_phase (ext : ExtOps) (dims : List DimData)
    (leafVars : List Nat) (agen : List PVar) (nlv kt : Bool)
    (fuel beginPos : Nat) (d0 : DimData)
    (hmem : d0 ∈ dims) (hnd : (dims.map (fun d => d.dvar)).Nodup)
    (hinert : ∀ d ∈ dims, d.dvar ∉ leafVars.map PVar.base)
    (hfuel : dims.length + 2 ≤ fuel) :
    ∀ (rest : List LeafData) (i : Nat) (s : BState),
      (∀ (k : Nat) (ld : LeafData), rest.get? k = some ld →
        PVar.base ld.v ∈ effDeps leafVars agen d0 →
        beginPos ≤ i + k ∧ ld.skip = false) →
      (rest.map (fun ld => ld.v)).Nodup →
      s.counts.lookup d0.dvar =
        some (((rest.filter (fun ld =>
          decide (PVar.base ld.v ∈ effDeps leafVars agen d0))).length : Int)) →
      1 ≤ (rest.filter (fun ld =>
          decide (PVar.base ld.v ∈ effDeps leafVars agen d0))).length →
      ems d0.dvar s = [] →
      ∃ (j : Nat) (ld : LeafData), rest.get? j = some ld ∧
        PVar.base ld.v ∈ effDeps leafVars agen d0 ∧
        (∀ (k : Nat) (ld' : LeafData), rest.get? k = some ld' →
          PVar.base ld'.v ∈ effDeps leafVars agen d0 → k ≤ j) ∧
        ems d0.dvar (buildAux ext (neededFor dims leafVars agen) nlv kt fuel
          beginPos rest i s) = [(i + j, .indexBind d0.dvar)] ∧
        (buildAux ext (neededFor dims leafVars agen) nlv kt fuel beginPos
          rest i s).counts.lookup d0.dvar = some 1 := by
  intro rest
  induction rest with
  | nil =>
      intro i s _ _ _ hpos _
      simp at hpos
  | cons ld rest' ih =>
      intro i s hdeps hnd' hc hpos hems
      rw [List.map_cons, List.nodup_cons] at hnd'
      by_cases hP : PVar.base ld.v ∈ effDeps leafVars agen d0
      · obtain ⟨hbp, hsk⟩ := hdeps 0 ld (by simp) hP
        have hnlt : ¬ i < beginPos := by omega
        rw [List.filter_cons_of_pos (by simpa using hP)] at hc hpos
        rw [buildAux, if_neg hnlt]
        by_cases hrem : 1 ≤ (rest'.filter (fun ld' =>
            decide (PVar.base ld'.v ∈ effDeps leafVars agen d0))).length
        · -- more dependencies remain: this hit decrements
          have h2 : (1 : Int) < (((ld :: rest'.filter (fun ld' =>
              decide (PVar.base ld'.v ∈ effDeps leafVars agen d0))).length : Nat) : Int) := by
            simp only [List.length_cons]
            push_cast
            omega
          obtain ⟨ha, hb⟩ := (processLeaf_hit ext dims leafVars agen nlv kt
            fuel i d0 ld hmem hnd hinert hfuel hP hsk s _ hc).2 (by
              simpa using h2)
          have ha' : (processLeaf ext (neededFor dims leafVars agen) nlv kt
              fuel s i ld).counts.lookup d0.dvar =
              some (((rest'.filter (fun ld' =>
                decide (PVar.base ld'.v ∈ effDeps leafVars agen d0))).length : Int)) := by
            rw [ha]
            congr 1
            simp only [List.length_cons]
            push_cast
            ring
          obtain ⟨j', ld', hg', hP', hbound', hems', hcnt'⟩ :=
            ih (i + 1) _
              (fun k ld'' hg hp => by
                obtain ⟨hb1, hb2⟩ := hdeps (k + 1) ld''
                  (by simpa using hg) hp
                exact ⟨by omega, hb2⟩)
              hnd'.2 ha' hrem (by rw [hb, hems])
          refine ⟨j' + 1, ld', by simpa using hg', hP', ?_, ?_, hcnt'⟩
          · intro k ld'' hg hp
            cases k with
            | zero => omega
            | succ k' =>
                have := hbound' k' ld'' (by simpa using hg) hp
                omega
          · rw [hems']
            have : i + 1 + j' = i + (j' + 1) := by omega
            rw [this]
        · -- this was the last dependency: the hit emits exactly once
          have hrem0 : (rest'.filter (fun ld' =>
              decide (PVar.base ld'.v ∈ effDeps leafVars agen d0))).length = 0 := by
            omega
          have hc1 : s.counts.lookup d0.dvar = some 1 := by
            rw [hc]
            congr 1
            simp only [List.length_cons, hrem0]
            norm_num
          obtain ⟨ha, hb⟩ := (processLeaf_hit ext dims leafVars agen nlv kt
            fuel i d0 ld hmem hnd hinert hfuel hP hsk s 1 hc1).1 rfl
          have hnone : ∀ ld' ∈ rest', PVar.base ld'.v ∉ effDeps leafVars agen d0 := by
            intro ld' hld' hcon
            have : ld' ∈ rest'.filter (fun ld'' =>
                decide (PVar.base ld''.v ∈ effDeps leafVars agen d0)) :=
              List.mem_filter.mpr ⟨hld', by simpa using hcon⟩
            rw [List.length_eq_zero] at hrem0
            rw [hrem0] at this
            exact absurd this (List.not_mem_nil _)
          obtain ⟨hfin1, hfin2⟩ := buildAux_no_dep_frame ext dims leafVars agen
            nlv kt fuel beginPos d0 hmem hnd hinert hfuel rest' (i + 1) _ 1
            hnone ha
          refine ⟨0, ld, by simp, hP, ?_, ?_, hfin1⟩
          · intro k ld'' hg hp
            cases k with
            | zero => omega
            | succ k' =>
                have hmem' : ld'' ∈ rest' := by
                  have := List.get?_mem (by simpa using hg : rest'.get? k' = some ld'')
                  exact this
                exact absurd hp (hnone ld'' hmem')
          · rw [hfin2, hb, hems]
            simp
      · rw [List.filter_cons_of_neg (by simpa using hP)] at hc hpos
        rw [buildAux]
        have hstep : ∀ s' : BState,
            s'.counts.lookup d0.dvar = s.counts.lookup d0.dvar →
            ems d0.dvar s' = ems d0.dvar s → True := fun _ _ _ => trivial
        by_cases hi : i < beginPos
        · rw [if_pos hi]
          obtain ⟨j', ld', hg', hP', hbound', hems', hcnt'⟩ :=
            ih (i + 1) s
              (fun k ld'' hg hp => by
                obtain ⟨hb1, hb2⟩ := hdeps (k + 1) ld''
                  (by simpa using hg) hp
                exact ⟨by omega, hb2⟩)
              hnd'.2 hc hpos hems
          refine ⟨j' + 1, ld', by simpa using hg', hP', ?_, ?_, hcnt'⟩
          · intro k ld'' hg hp
            cases k with
            | zero =>
                rw [List.get?_cons_zero] at hg
                cases hg
                exact absurd hp hP
            | succ k' =>
                have := hbound' k' ld'' (by simpa using hg) hp
                omega
          · rw [hems']
            have : i + 1 + j' = i + (j' + 1) := by omega
            rw [this]
        · rw [if_neg hi]
          obtain ⟨h1, h2⟩ := processLeaf_noHit ext dims leafVars agen nlv kt
            fuel i d0 ld hmem hnd hinert hfuel hP s _ hc
          obtain ⟨j', ld', hg', hP', hbound', hems', hcnt'⟩ :=
            ih (i + 1) _
              (fun k ld'' hg hp => by
                obtain ⟨hb1, hb2⟩ := hdeps (k + 1) ld''
                  (by simpa using hg) hp
                exact ⟨by omega, hb2⟩)
              hnd'.2 h1 hpos (by rw [h2, hems])
          refine ⟨j' + 1, ld', by simpa using hg', hP', ?_, ?_, hcnt'⟩
          · intro k ld'' hg hp
            cases k with
            | zero =>
                rw [List.get?_cons_zero] at hg
                cases hg
                exact absurd hp hP
            | succ k' =>
                have := hbound' k' ld'' (by simpa using hg) hp
                omega
          · rw [hems']
            have : i + 1 + j' = i + (j' + 1) := by omega
            rw [this]

/-- C2: For a derived (functional) dimension `d0` with at least one
not-yet-generated loop-variable dependency — under the well-formedness the
builder relies on: distinct dimension variables that are not themselves leaf
variables, distinct leaf variables, every dependency reached unskipped at or
after the starting position, and enough worklist fuel — the loop-nest
builder emits `d0`'s value binding exactly once, and it does so at the leaf
position of the last dependency variable of `d0` in generation order (hence
at a position no earlier than every variable it depends on); moreover the
final remaining-dependency counter is exactly 1 and the counter is
non-negative (indeed at least 1) after every prefix of the build. -/
theorem build_dep_dim_emitted_once (ext : ExtOps) (dims : List DimData)
    (leafData : List LeafData) (vmap0 : List (Nat × PExpr))
    (newLoopVar keepTrivial : Bool) (beginPos fuel : Nat) (d0 : DimData)
    (hmem : d0 ∈ dims)
    (hndD : (dims.map (fun d => d.dvar)).Nodup)
    (hinert : ∀ d ∈ dims, d.dvar ∉ leafData.map (fun ld => PVar.base ld.v))
    (hndL : (leafData.map (fun ld => ld.v)).Nodup)
    (hdepsN : d0.deps.Nodup)
    (hne : effDeps (leafData.map (fun ld => ld.v))
      (vmap0.map (fun p => PVar.base p.1)) d0 ≠ [])
    (hreach : ∀ (k : Nat) (ld : LeafData), leafData.get? k = some ld →
      PVar.base ld.v ∈ effDeps (leafData.map (fun ld => ld.v))
        (vmap0.map (fun p => PVar.base p.1)) d0 →
      beginPos ≤ k ∧ ld.skip = false)
    (hfuel : dims.length + 2 ≤ fuel) :
    (∃ (j : Nat) (ld : LeafData), leafData.get? j = some ld ∧
      PVar.base ld.v ∈ effDeps (leafData.map (fun ld => ld.v))
        (vmap0.map (fun p => PVar.base p.1)) d0 ∧
      (∀ (k : Nat) (ld' : LeafData), leafData.get? k = some ld' →
        PVar.base ld'.v ∈ effDeps (leafData.map (fun ld => ld.v))
          (vmap0.map (fun p => PVar.base p.1)) d0 → k ≤ j) ∧
      ems d0.dvar (buildLoopNest ext dims leafData vmap0 newLoopVar
        keepTrivial beginPos fuel) = [(j, NestItem.indexBind d0.dvar)]) ∧
    (buildLoopNest ext dims leafData vmap0 newLoopVar keepTrivial beginPos
      fuel).counts.lookup d0.dvar = some 1 ∧
    (∀ (k : Nat), ∃ c : Int,
      (buildAux ext (neededFor dims (leafData.map (fun ld => ld.v))
          (vmap0.map (fun p => PVar.base p.1))) newLoopVar keepTrivial fuel
          beginPos (leafData.take k) 0
          (initBState dims (leafData.map (fun ld => ld.v))
            (vmap0.map (fun p => PVar.base p.1)) vmap0)).counts.lookup d0.dvar =
        some c ∧ 0 ≤ c) := by
  have hmapeq : (leafData.map (fun ld => ld.v)).map PVar.base =
      leafData.map (fun ld => PVar.base ld.v) := by
    rw [List.map_map]; rfl
  have hinert' : ∀ d ∈ dims,
      d.dvar ∉ (leafData.map (fun ld => ld.v)).map PVar.base := by
    intro d hd
    rw [hmapeq]
    exact hinert d hd
  have hDnodup : (effDeps (leafData.map (fun ld => ld.v))
      (vmap0.map (fun p => PVar.base p.1)) d0).Nodup := hdepsN.filter _
  have hDsub : ∀ x ∈ effDeps (leafData.map (fun ld => ld.v))
      (vmap0.map (fun p => PVar.base p.1)) d0,
      x ∈ leafData.map (fun ld => PVar.base ld.v) := by
    intro x hx
    have hx' := List.mem_filter.mp hx
    have hcontains := (Bool.and_eq_true_iff.mp hx'.2).1
    rw [← hmapeq]
    simpa using hcontains
  have hcard := length_filter_mem_eq leafData
    (effDeps (leafData.map (fun ld => ld.v))
      (vmap0.map (fun p => PVar.base p.1)) d0) hDnodup hDsub hndL
  have hinit := lookup_initCounts dims (leafData.map (fun ld => ld.v))
    (vmap0.map (fun p => PVar.base p.1)) d0 hmem hndD
  have hinitc : (initBState dims (leafData.map (fun ld => ld.v))
      (vmap0.map (fun p => PVar.base p.1)) vmap0).counts.lookup d0.dvar =
      some (((leafData.filter (fun ld =>
        decide (PVar.base ld.v ∈ effDeps (leafData.map (fun ld => ld.v))
          (vmap0.map (fun p => PVar.base p.1)) d0))).length : Int)) := by
    rw [show (initBState dims (leafData.map (fun ld => ld.v))
        (vmap0.map (fun p => PVar.base p.1)) vmap0).counts =
      initCounts dims (leafData.map (fun ld => ld.v))
        (vmap0.map (fun p => PVar.base p.1)) from rfl]
    rw [hinit, hcard]
  have hpos : 1 ≤ (leafData.filter (fun ld =>
      decide (PVar.base ld.v ∈ effDeps (leafData.map (fun ld => ld.v))
        (vmap0.map (fun p => PVar.base p.1)) d0))).length := by
    rw [hcard]
    exact List.length_pos.mpr hne
  obtain ⟨j, ld, hg, hP, hbnd, hemsF, hcntF⟩ :=
    buildAux_dep_phase ext dims (leafData.map (fun ld => ld.v))
      (vmap0.map (fun p => PVar.base p.1)) newLoopVar keepTrivial fuel
      beginPos d0 hmem hndD hinert' hfuel leafData 0
      (initBState dims (leafData.map (fun ld => ld.v))
        (vmap0.map (fun p => PVar.base p.1)) vmap0)
      (fun k ld hgk hPk => by
        have := hreach k ld hgk hPk
        exact ⟨by omega, this.2⟩)
      hndL hinitc hpos rfl
  refine ⟨⟨j, ld, hg, hP, hbnd, by simpa using hemsF⟩, hcntF, ?_⟩
  intro k
  have hlb1 : (1 : Int) ≤ ((effDeps (leafData.map (fun ld => ld.v))
      (vmap0.map (fun p => PVar.base p.1)) d0).length : Int) := by
    have := List.length_pos.mpr hne
    omega
  have hinit2 : (initBState dims (leafData.map (fun ld => ld.v))
      (vmap0.map (fun p => PVar.base p.1)) vmap0).counts.lookup d0.dvar =
      some (((effDeps (leafData.map (fun ld => ld.v))
        (vmap0.map (fun p => PVar.base p.1)) d0).length : Int)) := hinit
  obtain ⟨c, hck, hlb⟩ := buildAux_lb ext
    (neededFor dims (leafData.map (fun ld => ld.v))
      (vmap0.map (fun p => PVar.base p.1))) newLoopVar keepTrivial fuel
    beginPos d0.dvar (leafData.take k) 0
    (initBState dims (leafData.map (fun ld => ld.v))
      (vmap0.map (fun p => PVar.base p.1)) vmap0) _ hinit2 hlb1
  exact ⟨c, hck, by omega⟩

/-- Identity instances of the expression oracles, for concrete builder
runs. -/
def c2ext : ExtOps := ⟨id, id, id⟩

/-- A derived dimension depending on the two leaf variables below. -/
def c2dim : DimData := ⟨.base 50, [.base 1, .base 2]⟩

/-- First leaf variable: a plain unbound serial loop over `[0, 2)`. -/
def c2leaf1 : LeafData :=
  { v := 1, skip := false, bindTag := "", bindVar := .base 1, isBound := false,
    dom := ⟨.intImm 0, .intImm 2⟩, bindDom := ⟨.intImm 0, .intImm 2⟩,
    forType := .serial, pragmas := [], prefetch := [], depIdxVars := [] }

/-- Second leaf variable, like the first. -/
def c2leaf2 : LeafData :=
  { v := 2, skip := false, bindTag := "", bindVar := .base 2, isBound := false,
    dom := ⟨.intImm 0, .intImm 2⟩, bindDom := ⟨.intImm 0, .intImm 2⟩,
    forType := .serial, pragmas := [], prefetch := [], depIdxVars := [] }

/-- Witness for C2 on a two-leaf nest with one derived dimension depending
on both leaves: its binding is emitted exactly once, at the second (last)
leaf, and its final counter is 1. -/
theorem build_dep_dim_emitted_once_witness :
    (buildLoopNest c2ext [c2dim] [c2leaf1, c2leaf2] [] false false
        0 3).counts.lookup (PVar.base 50) = some 1 ∧
    ems (PVar.base 50)
      (buildLoopNest c2ext [c2dim] [c2leaf1, c2leaf2] [] false false 0 3) =
      [(1, NestItem.indexBind (PVar.base 50))] := by
  have h := build_dep_dim_emitted_once c2ext [c2dim] [c2leaf1, c2leaf2] []
    false false 0 3 c2dim (by decide) (by decide) (by decide) (by decide)
    (by decide) (by decide)
    (by
      intro k ld hg hp
      match k with
      | 0 =>
          simp only [List.get?_cons_zero, Option.some.injEq] at hg
          subst hg
          exact ⟨Nat.zero_le 0, rfl⟩
      | 1 =>
          simp only [List.get?_cons_succ, List.get?_cons_zero,
            Option.some.injEq] at hg
          subst hg
          exact ⟨Nat.zero_le 1, rfl⟩
      | (n + 2) => simp [List.get?] at hg)
    (by decide)
  exact ⟨h.2.1, by decide⟩

theorem cascadeFold_vmap (i : Nat) :
    ∀ (L : List DimData) (sa : BState × List PVar),
      (L.foldl (cascadeHit i) sa).1.vmap = sa.1.vmap := by
  intro L
  induction L with
  | nil => intro sa; rfl
  | cons d rest ih =>
      intro sa
      rw [List.foldl_cons, ih]
      unfold cascadeHit
      cases sa.1.counts.lookup d.dvar with
      | none => rfl
      | some c =>
          by_cases h1 : c = 1
          · simp [h1]
          · by_cases h2 : 1 < c <;> simp [h1, h2]

theorem runWorklist_vmap (nf : PVar → List DimData) (i : Nat) :
    ∀ (fuel : Nat) (stack : List PVar) (s : BState),
      (runWorklist nf i fuel stack s).vmap = s.vmap := by
  intro fuel
  induction fuel with
  | zero => intro stack s; rfl
  | succ f ih =>
      intro stack s
      cases stack with
      | nil => rfl
      | cons cur rest =>
          rw [runWorklist, ih, cascadeFold_vmap]

theorem cascadeFold_nest (i : Nat) :
    ∀ (L : List DimData) (sa : BState × List PVar),
      ∃ extra, (L.foldl (cascadeHit i) sa).1.nest = sa.1.nest ++ extra ∧
        ∀ p ∈ extra, ∃ x, p = (i, NestItem.indexBind x) := by
  intro L
  induction L with
  | nil => intro sa; exact ⟨[], by simp, by simp⟩
  | cons d rest ih =>
      intro sa
      obtain ⟨extra, h1, h2⟩ := ih (cascadeHit i sa d)
      have hstep : (cascadeHit i sa d).1.nest = sa.1.nest ∨
          (cascadeHit i sa d).1.nest = sa.1.nest ++ [(i, .indexBind d.dvar)] := by
        unfold cascadeHit
        cases sa.1.counts.lookup d.dvar with
        | none => exact Or.inl rfl
        | some c =>
            by_cases h1' : c = 1
            · simp [h1']
            · by_cases h2' : 1 < c <;> simp [h1', h2']
      rcases hstep with hstep | hstep
      · exact ⟨extra, by rw [List.foldl_cons, h1, hstep], h2⟩
      · refine ⟨(i, .indexBind d.dvar) :: extra, ?_, ?_⟩
        · rw [List.foldl_cons, h1, hstep, List.append_assoc]
          rfl
        · intro p hp
          rcases List.mem_cons.mp hp with h | h
          · exact ⟨d.dvar, h⟩
          · exact h2 p h

theorem runWorklist_nest_extends (nf : PVar → List DimData) (i : Nat) :
    ∀ (fuel : Nat) (stack : List PVar) (s : BState),
      ∃ extra, (runWorklist nf i fuel stack s).nest = s.nest ++ extra ∧
        ∀ p ∈ extra, ∃ x, p = (i, NestItem.indexBind x) := by
  intro fuel
  induction fuel with
  | zero =>
      intro stack s
      exact ⟨[], by cases stack <;> simp [runWorklist], by simp⟩
  | succ f ih =>
      intro stack s
      cases stack with
      | nil => exact ⟨[], by simp [runWorklist], by simp⟩
      | cons cur rest =>
          rw [runWorklist]
          obtain ⟨e1, he1, hp1⟩ := cascadeFold_nest i (nf cur) (s, [])
          obtain ⟨e2, he2, hp2⟩ := ih
            (((nf cur).foldl (cascadeHit i) (s, [])).2.reverse ++ rest)
            ((nf cur).foldl (cascadeHit i) (s, [])).1
          refine ⟨e1 ++ e2, ?_, ?_⟩
          · rw [he2, he1, List.append_assoc]
          · intro p hp
            rcases List.mem_append.mp hp with h | h
            · exact hp1 p h
            · exact hp2 p h

/-- Is a nest item a `for` loop? -/
def NestItem.isForLoop : NestItem → Bool
  | .forLoop _ _ _ => true
  | _ => false

/-- C9: for an unbound (no thread tag) materialized leaf variable, the
builder appends exactly the branch emission of `leafEmit` (followed only by
derived-index bindings from the cascade) and sets the variable's value-map
entry to the branch's value; and the branch emission is: (i) when
trivial-loop elision is on (`debug_keep_trivial_loop` false) and the
simplified extent is one — a value binding of the variable to the range
minimum with no loop construct at all; (ii) otherwise, when the range
minimum is zero — a counted loop with the variable mapped to the loop
induction variable; (iii) otherwise — a zero-based loop over the auxiliary
`.idx` induction variable, with the variable bound and mapped to
`min + induction`. -/
theorem build_materialized_loop_cases (ext : ExtOps) (nf : PVar → List DimData)
    (nlv kt : Bool) (fuel i : Nat) (ld : LeafData) (st : BState)
    (hskip : ld.skip = false) (htag : ld.bindTag = "") :
    (∃ extra, (processLeaf ext nf nlv kt fuel st i ld).nest =
        (st.nest ++ (leafEmit ext nlv kt ld st.genIdx).1.map (fun it => (i, it)))
          ++ extra ∧
        ∀ p ∈ extra, ∃ x, p = (i, NestItem.indexBind x)) ∧
    ((processLeaf ext nf nlv kt fuel st i ld).vmap.lookup ld.v =
      some (leafEmit ext nlv kt ld st.genIdx).2.1) ∧
    (kt = false →
      (ext.simplifyE (effectiveDom ext ld st.genIdx).rext).isOne = true →
      ((leafEmit ext nlv kt ld st.genIdx).1 =
        ld.pragmas.map (fun p => NestItem.pragmaAttr ld.v p.1 p.2) ++
        [.letBind (if nlv then PVar.initv ld.v else ld.bindVar)
          (effectiveDom ext ld st.genIdx).rmin] ++
        ld.prefetch.map (fun p => NestItem.prefetchAttr p.1 p.2) ++
        (if nlv then [] else [.attrLoopScope ld.v]) ∧
      (leafEmit ext nlv kt ld st.genIdx).2.1 =
        (effectiveDom ext ld st.genIdx).rmin ∧
      ((leafEmit ext nlv kt ld st.genIdx).1.all
        (fun it => ! it.isForLoop)) = true)) ∧
    (¬(kt = false ∧
        (ext.simplifyE (effectiveDom ext ld st.genIdx).rext).isOne = true) →
      (effectiveDom ext ld st.genIdx).rmin.isZero = true →
      ((leafEmit ext nlv kt ld st.genIdx).1 =
        ld.pragmas.map (fun p => NestItem.pragmaAttr ld.v p.1 p.2) ++
        [.forLoop (if nlv then PVar.initv ld.v else ld.bindVar)
          (effectiveDom ext ld st.genIdx).rext ld.forType] ++
        ld.prefetch.map (fun p => NestItem.prefetchAttr p.1 p.2) ++
        (if nlv then [] else [.attrLoopScope ld.v]) ∧
      (leafEmit ext nlv kt ld st.genIdx).2.1 =
        .evar (if nlv then PVar.initv ld.v else ld.bindVar))) ∧
    (¬(kt = false ∧
        (ext.simplifyE (effectiveDom ext ld st.genIdx).rext).isOne = true) →
      (effectiveDom ext ld st.genIdx).rmin.isZero = false →
      ((leafEmit ext nlv kt ld st.genIdx).1 =
        ld.pragmas.map (fun p => NestItem.pragmaAttr ld.v p.1 p.2) ++
        [.forLoop (PVar.idx ld.v) (effectiveDom ext ld st.genIdx).rext
          ld.forType,
         .letBind (if nlv then PVar.initv ld.v else ld.bindVar)
          (.add (effectiveDom ext ld st.genIdx).rmin (.evar (PVar.idx ld.v)))] ++
        ld.prefetch.map (fun p => NestItem.prefetchAttr p.1 p.2) ++
        (if nlv then [] else [.attrLoopScope ld.v]) ∧
      (leafEmit ext nlv kt ld st.genIdx).2.1 =
        .add (effectiveDom ext ld st.genIdx).rmin (.evar (PVar.idx ld.v)))) := by
  have hns : ¬ ld.skip = true := by rw [hskip]; exact Bool.false_ne_true
  refine ⟨?_, ?_, ?_, ?_, ?_⟩
  · rw [processLeaf, if_neg hns]
    obtain ⟨extra, he, hp⟩ := runWorklist_nest_extends nf i fuel [.base ld.v]
      { st with
        genLoop := st.genLoop ++ [.base ld.v],
        nest := st.nest ++
          (leafEmit ext nlv kt ld st.genIdx).1.map (fun it => (i, it)),
        vmap := updAL st.vmap ld.v (leafEmit ext nlv kt ld st.genIdx).2.1,
        fatal := st.fatal || (leafEmit ext nlv kt ld st.genIdx).2.2 }
    exact ⟨extra, he, hp⟩
  · rw [processLeaf, if_neg hns, runWorklist_vmap]
    exact lookup_updAL_self st.vmap ld.v _
  · intro hkt hone
    subst hkt
    have hcond : (!false &&
        (ext.simplifyE (effectiveDom ext ld st.genIdx).rext).isOne) = true := by
      rw [hone]; rfl
    cases nlv <;>
      simp [leafEmit, htag, hcond, hone, List.all_append, List.all_map,
        Function.comp, NestItem.isForLoop] <;>
      constructor <;> (intro x a b hmem heq; subst heq; rfl)
  · intro hnot hzero
    have hcond : (!kt &&
        (ext.simplifyE (effectiveDom ext ld st.genIdx).rext).isOne) = false := by
      cases kt with
      | false =>
          cases hone : (ext.simplifyE (effectiveDom ext ld st.genIdx).rext).isOne
          · rfl
          · exact absurd ⟨rfl, hone⟩ hnot
      | true => rfl
    cases nlv <;> simp [leafEmit, htag, hcond, hzero]
  · intro hnot hzero
    have hcond : (!kt &&
        (ext.simplifyE (effectiveDom ext ld st.genIdx).rext).isOne) = false := by
      cases kt with
      | false =>
          cases hone : (ext.simplifyE (effectiveDom ext ld st.genIdx).rext).isOne
          · rfl
          · exact absurd ⟨rfl, hone⟩ hnot
      | true => rfl
    cases nlv <;> simp [leafEmit, htag, hcond, hzero]

/-- A unit-extent leaf variable starting at 3, for a concrete builder run. -/
def c9leaf : LeafData :=
  { v := 7, skip := false, bindTag := "", bindVar := .base 7, isBound := false,
    dom := ⟨.intImm 3, .intImm 1⟩, bindDom := ⟨.intImm 3, .intImm 1⟩,
    forType := .serial, pragmas := [], prefetch := [], depIdxVars := [] }

/-- The initial builder state for the run on `c9leaf` alone. -/
def c9st : BState := initBState [] [7] [] []

/-- Witness for C9: on a unit-extent unbound leaf with trivial-loop elision
on, the builder maps the variable to the emitted value and emits no loop
construct. -/
theorem build_materialized_loop_cases_witness :
    c9leaf.skip = false ∧ c9leaf.bindTag = "" ∧
    (c2ext.simplifyE (effectiveDom c2ext c9leaf c9st.genIdx).rext).isOne
      = true ∧
    ((processLeaf c2ext (neededFor [] [7] []) false false 2 c9st 0
          c9leaf).vmap.lookup c9leaf.v =
        some (leafEmit c2ext false false c9leaf c9st.genIdx).2.1 ∧
      (leafEmit c2ext false false c9leaf c9st.genIdx).1.all
        (fun it => ! it.isForLoop) = true) :=
  ⟨rfl, rfl, rfl,
    (build_materialized_loop_cases c2ext (neededFor [] [7] []) false false 2 0
        c9leaf c9st rfl rfl).2.1,
    ((build_materialized_loop_cases c2ext (neededFor [] [7] []) false false 2 0
        c9leaf c9st rfl rfl).2.2.1 rfl rfl).2.2⟩
